import Mathlib

/-!
Verification of the shift-scheduling core of the `gbsoftOltu` ai-service.

The Python sources embedded here:
  * `schemas/shifts.py`        — data model (`EmployeeInput`, `ShiftConstraint`, …)
  * `models/shift_optimizer.py` — orchestrator, slot generation, genetic fallback,
    confidence scoring, constraint validation
  * `utils/solvers/timefold_hybrid.py` — CP-SAT exact solver (constraint model,
    adaptive timeout, exact-path confidence)
  * `routers/shifts.py`        — the `/generate` endpoint's control flow

Modelling conventions:
  * Calendar dates are absolute day numbers (`ℕ`), day 0 being 1970-01-01, a
    Thursday.  Python's `datetime.weekday()` (Monday = 0 … Sunday = 6) is then
    `(d + 3) % 7`, and `strftime("%A").lower()` is the corresponding name.
  * Python `str.lower()` is modelled as ASCII lowercasing (all strings involved
    — weekday names, shift-type tags, skill tags — are ASCII in this system).
  * Python dicts are association lists.  A dict built by a comprehension with
    possibly colliding keys keeps the *last* binding, hence `py_dict_get_last`.
    Dicts that come straight from parsed JSON have unique keys and are read
    with `List.lookup`.
  * Scores and timeouts are exact rationals (`ℚ`); the genetic fitness value,
    which involves a population standard deviation (a square root), lives in `ℝ`.
  * The CP-SAT solver is modelled nondeterministically: a call either fails
    (the `INFEASIBLE` branch raises `RuntimeError`) or returns *some* selection
    of decision variables satisfying every hard constraint that
    `TimefoldHybridSolver.solve` adds to the model.  `satisfies_model` is the
    executable checker for exactly those constraints.  The solver's objective
    function only influences *which* feasible selection is returned, never
    whether the hard constraints hold, so it is not modelled.
-/

namespace GbsoftOltu

/-! ## Basic string / dict helpers -/

/-- ASCII lowercasing of a single character (model of Python `str.lower` per char). -/
def ascii_lower_char (c : Char) : Char :=
  if 65 ≤ c.toNat && c.toNat ≤ 90 then Char.ofNat (c.toNat + 32) else c

/-- Model of Python `str.lower()` (ASCII). -/
def str_lower (s : String) : String := String.mk (s.data.map ascii_lower_char)

/-- Model of `dict.get` for dicts where later bindings overwrite earlier ones
(as produced by a Python dict comprehension over possibly-colliding keys). -/
def py_dict_get_last (m : List (String × List String)) (k : String) : Option (List String) :=
  m.reverse.lookup k

/-! ## Data model — `schemas/shifts.py` -/

/-- `class ShiftSlot(str, Enum)` -/
inductive PyShiftSlot where
  | MORNING
  | AFTERNOON
  | NIGHT
deriving DecidableEq

/-- The `.value` of the enum member. -/
def PyShiftSlot.value : PyShiftSlot → String
  | .MORNING => "MORNING"
  | .AFTERNOON => "AFTERNOON"
  | .NIGHT => "NIGHT"

/-- `class EmployeeInput(BaseModel)`.  The pydantic validators restrict
`performance_score` to `[0,5]` and `max_hours_per_week` to `[0,168]`; those
bounds appear as hypotheses where a theorem needs them. -/
structure EmployeeInput where
  id : String
  name : String
  skills : List String
  performance_score : ℚ
  max_hours_per_week : ℕ
  availability : List (String × List String)
deriving DecidableEq

instance : Inhabited EmployeeInput :=
  ⟨{ id := "", name := "", skills := [], performance_score := 0,
     max_hours_per_week := 0, availability := [] }⟩

/-- `class ShiftConstraint(BaseModel)` (defaults 40 / 12 / 6 / None). -/
structure ShiftConstraint where
  max_hours_per_week : ℕ
  min_rest_hours : ℕ
  max_consecutive_days : ℕ
  required_skills : Option (List (String × List String))
deriving DecidableEq

/-- One slot dict as produced by `ShiftOptimizer._create_time_slots`. -/
structure SlotRec where
  date : ℕ
  slot : PyShiftSlot
  required_employees : ℕ
  required_skills : Option (List String)
deriving DecidableEq

instance : Inhabited SlotRec :=
  ⟨{ date := 0, slot := .MORNING, required_employees := 1, required_skills := none }⟩

/-- `class ShiftAssignment(BaseModel)` (the `day` string is kept as the absolute
day number it denotes). -/
structure ShiftAssignment where
  employee_id : String
  employee_name : String
  day : ℕ
  slot : PyShiftSlot
  confidence : ℚ
  required_skills : Option (List String)
deriving DecidableEq

instance : Inhabited ShiftAssignment :=
  ⟨{ employee_id := "", employee_name := "", day := 0, slot := .MORNING
     confidence := 0, required_skills := none }⟩

/-! ## Calendar helpers -/

def weekday_names : List String :=
  ["monday", "tuesday", "wednesday", "thursday", "friday", "saturday", "sunday"]

/-- Python `datetime.weekday()`: Monday = 0 … Sunday = 6 (day 0 is a Thursday). -/
def py_weekday (d : ℕ) : ℕ := (d + 3) % 7

/-- Python `datetime.strftime("%A").lower()`. -/
def day_name (d : ℕ) : String := weekday_names.getD (py_weekday d) ""

/-! ## Shared feasibility logic

Both solvers normalize the availability dict the same way:
`{k.lower(): [s.lower() for s in v] for k, v in employee.availability.items()}`. -/

def normalize_availability (av : List (String × List String)) : List (String × List String) :=
  av.map (fun kv => (str_lower kv.1, kv.2.map str_lower))

/-- The availability test common to `TimefoldHybridSolver._is_available` and
`ShiftOptimizer._is_employee_available_for_slot`:
`slot["slot"].value.lower() in availability.get(day_name, [])`. -/
def avail_ok (employee : EmployeeInput) (slot : SlotRec) : Bool :=
  ((py_dict_get_last (normalize_availability employee.availability)
      (day_name slot.date)).getD []).contains (str_lower slot.slot.value)

/-- Python `bool(set(required).intersection(set(skills)))`. -/
def skills_intersect (required : List String) (skills : List String) : Bool :=
  required.any (fun r => skills.contains r)

/-- Python truthiness of the `required_skills` constraint field
(`None` and `{}` are falsy). -/
def skills_truthy : Option (List (String × List String)) → Bool
  | none => false
  | some m => !m.isEmpty

/-- `TimefoldHybridSolver._is_available` (timefold_hybrid.py lines 192-210). -/
def is_available (employee : EmployeeInput) (slot : SlotRec) (constraints : ShiftConstraint) :
    Bool :=
  if !avail_ok employee slot then false
  else if skills_truthy constraints.required_skills then
    let required :=
      (List.lookup (str_lower slot.slot.value) (constraints.required_skills.getD [])).getD []
    if !required.isEmpty && !skills_intersect required employee.skills then false else true
  else true

/-- `ShiftOptimizer._is_employee_available_for_slot` (shift_optimizer.py lines 410-416):
`required = slot.get("required_skills") or []`. -/
def is_employee_available_for_slot (employee : EmployeeInput) (slot : SlotRec) : Bool :=
  if !avail_ok employee slot then false
  else
    let required := slot.required_skills.getD []
    required.isEmpty || skills_intersect required employee.skills

/-! ## Slot generation — `ShiftOptimizer._create_time_slots` (lines 169-192) -/

def slot_types : List PyShiftSlot := [.MORNING, .AFTERNOON, .NIGHT]

/-- The `while current_date <= end_date` loop, phrased over the day offsets
`0, 1, …, end_date - start_date`; for `start_date > end_date` the loop body
never runs and the result is `[]`, exactly as in the source. -/
def create_time_slots (start_date end_date : ℕ) (constraints : ShiftConstraint) :
    List SlotRec :=
  (List.range (end_date + 1 - start_date)).flatMap (fun d =>
    slot_types.map (fun t =>
      { date := start_date + d
        slot := t
        required_employees := 1
        required_skills :=
          List.lookup (str_lower t.value) (constraints.required_skills.getD []) }))

/-! ## Rounding — Python `round(x, 2)` (banker's rounding) -/

def py_round_half_even (q : ℚ) : ℤ :=
  let f := ⌊q⌋
  let r := q - f
  if r < 1/2 then f
  else if 1/2 < r then f + 1
  else if f % 2 = 0 then f else f + 1

def py_round2 (q : ℚ) : ℚ := (py_round_half_even (q * 100) : ℚ) / 100

/-- Python `int(x)` (truncation toward zero). -/
def py_trunc (q : ℚ) : ℤ := if 0 ≤ q then ⌊q⌋ else ⌈q⌉

/-! ## Exact solver — `utils/solvers/timefold_hybrid.py` -/

/-- `self.shift_hours = 8` -/
def shift_hours : ℕ := 8

/-- `self.confidence_floor = 0.55` -/
def confidence_floor : ℚ := 0.55

/-- `shift_times` start hours (lines 72-76). -/
def shift_start : PyShiftSlot → ℕ
  | .MORNING => 8
  | .AFTERNOON => 16
  | .NIGHT => 0

/-- `shift_times` end hours (lines 72-76). -/
def shift_end : PyShiftSlot → ℕ
  | .MORNING => 16
  | .AFTERNOON => 24
  | .NIGHT => 8

/-- Rest hours between a shift on one day and a shift on the *following* day
(lines 109-115). -/
def rest_hours_next_day (curr next : PyShiftSlot) : ℕ :=
  if shift_end curr == 24 then shift_start next
  else (24 - shift_end curr) + shift_start next

/-- A decision variable exists for the pair `(e, s)` iff both indices are in
range and `_is_available` holds (lines 43-49). -/
def has_var (employees : List EmployeeInput) (slots : List SlotRec) (c : ShiftConstraint)
    (e s : ℕ) : Bool :=
  decide (e < employees.length) && decide (s < slots.length) &&
    is_available (employees.getD e default) (slots.getD s default) c

/-- `days = sorted({slot["date"] for slot in time_slots})` (line 78). -/
def sorted_days (slots : List SlotRec) : List ℕ :=
  List.insertionSort (· ≤ ·) (slots.map (·.date)).dedup

/-- `day_to_slots[d]`: the indices of the slots on day `d` (lines 79-81). -/
def day_slot_indices (slots : List SlotRec) (d : ℕ) : List ℕ :=
  (List.range slots.length).filter (fun s => (slots.getD s default).date == d)

/-- The dates for which a `day_active` indicator variable is created: one per
slot index that starts a new date (lines 129-142). -/
def indicator_days (slots : List SlotRec) : List ℕ :=
  (List.range slots.length).filterMap (fun i =>
    if i == 0 || !((slots.getD i default).date == (slots.getD (i - 1) default).date) then
      some (slots.getD i default).date
    else none)

/-- `constraints.max_consecutive_days or 7` (line 126): Python `or` replaces a
falsy (zero) value by 7. -/
def max_consecutive_or7 (c : ShiftConstraint) : ℕ :=
  if c.max_consecutive_days == 0 then 7 else c.max_consecutive_days

/-- The `AddMaxEquality` day indicator: the employee is active on day `d` iff
some variable of that day is selected (lines 132-141). -/
def day_active (employees : List EmployeeInput) (slots : List SlotRec) (c : ShiftConstraint)
    (sel : ℕ → ℕ → Bool) (e d : ℕ) : Bool :=
  (day_slot_indices slots d).any (fun s => has_var employees slots c e s && sel e s)

/-- Selected variables exist in the model (`assignments` only holds feasible
pairs, lines 43-49). -/
def sel_in_domain (employees : List EmployeeInput) (slots : List SlotRec)
    (c : ShiftConstraint) (sel : ℕ → ℕ → Bool) : Bool :=
  (List.range employees.length).all (fun e =>
    (List.range slots.length).all (fun s =>
      !sel e s || has_var employees slots c e s))

/-- Coverage: `AddExactlyOne` over each slot's feasible variables; slots with
no variables are merely recorded as uncovered (lines 51-57). -/
def coverage_ok (employees : List EmployeeInput) (slots : List SlotRec)
    (c : ShiftConstraint) (sel : ℕ → ℕ → Bool) : Bool :=
  (List.range slots.length).all (fun s =>
    ((List.range employees.length).filter (fun e => has_var employees slots c e s)).isEmpty ||
    ((List.range employees.length).countP
        (fun e => has_var employees slots c e s && sel e s) == 1))

/-- Hours cap: `sum(employee_vars) * shift_hours <= min(employee cap, global cap)`,
added whenever the employee has at least one variable (lines 59-68). -/
def hours_ok (employees : List EmployeeInput) (slots : List SlotRec)
    (c : ShiftConstraint) (sel : ℕ → ℕ → Bool) : Bool :=
  (List.range employees.length).all (fun e =>
    ((List.range slots.length).filter (fun s => has_var employees slots c e s)).isEmpty ||
    decide (((List.range slots.length).countP
        (fun s => has_var employees slots c e s && sel e s)) * shift_hours
      ≤ min (employees.getD e default).max_hours_per_week c.max_hours_per_week))

/-- Minimum rest: for every pair of variables of one employee on consecutive
entries of the sorted day list whose rest gap is below the minimum, at most one
of the two may be selected (lines 83-123). -/
def rest_ok (employees : List EmployeeInput) (slots : List SlotRec)
    (c : ShiftConstraint) (sel : ℕ → ℕ → Bool) : Bool :=
  let days := sorted_days slots
  (List.range employees.length).all (fun e =>
    (List.range (days.length - 1)).all (fun i =>
      (day_slot_indices slots (days.getD i 0)).all (fun s1 =>
        !has_var employees slots c e s1 ||
        (day_slot_indices slots (days.getD (i + 1) 0)).all (fun s2 =>
          !has_var employees slots c e s2 ||
          !decide (rest_hours_next_day (slots.getD s1 default).slot
              (slots.getD s2 default).slot < c.min_rest_hours) ||
          !(sel e s1 && sel e s2)))))

/-- Max consecutive days: over every window of `max_consecutive + 1` successive
day indicators, at most `max_consecutive` may be active (lines 125-147). -/
def consecutive_ok (employees : List EmployeeInput) (slots : List SlotRec)
    (c : ShiftConstraint) (sel : ℕ → ℕ → Bool) : Bool :=
  let idays := indicator_days slots
  let maxc := max_consecutive_or7 c
  (List.range employees.length).all (fun e =>
    (List.range (idays.length - maxc)).all (fun i =>
      decide (((idays.drop i).take (maxc + 1)).countP
          (fun d => day_active employees slots c sel e d) ≤ maxc)))

/-- All hard constraints that `TimefoldHybridSolver.solve` adds to the CP-SAT
model.  A successful (`OPTIMAL`/`FEASIBLE`) solve returns a selection
satisfying this checker; when no selection satisfies it the solver status is
`INFEASIBLE` and line 167 raises `RuntimeError`. -/
def satisfies_model (employees : List EmployeeInput) (slots : List SlotRec)
    (c : ShiftConstraint) (sel : ℕ → ℕ → Bool) : Bool :=
  sel_in_domain employees slots c sel &&
  coverage_ok employees slots c sel &&
  hours_ok employees slots c sel &&
  rest_ok employees slots c sel &&
  consecutive_ok employees slots c sel

/-- The exact-path confidence before rounding:
`max(self.confidence_floor, min(0.95, employee.performance_score / 5 + 0.2))`
(lines 174-177). -/
def exact_confidence (perf : ℚ) : ℚ :=
  max confidence_floor (min 0.95 (perf / 5 + 0.2))

/-- The schedule built from a solved model: one `ShiftAssignment` per selected
variable, in the (employee-major) insertion order of the `assignments` dict
(lines 169-187); `confidence=round(confidence, 2)`. -/
def schedule_of (employees : List EmployeeInput) (slots : List SlotRec)
    (c : ShiftConstraint) (sel : ℕ → ℕ → Bool) : List ShiftAssignment :=
  (List.range employees.length).flatMap (fun e =>
    (List.range slots.length).filterMap (fun s =>
      if has_var employees slots c e s && sel e s then
        some { employee_id := (employees.getD e default).id
               employee_name := (employees.getD e default).name
               day := (slots.getD s default).date
               slot := (slots.getD s default).slot
               confidence :=
                 py_round2 (exact_confidence (employees.getD e default).performance_score)
               required_skills := (slots.getD s default).required_skills }
      else none))

/-- `TimefoldHybridSolver._calculate_adaptive_timeout` (lines 212-247). -/
def calculate_adaptive_timeout (num_employees num_slots : ℕ) (c : ShiftConstraint) : ℤ :=
  let timeout : ℚ := 60
  let timeout := if num_employees > 20 then timeout + ((num_employees : ℚ) - 20) * 2
                 else timeout
  let timeout := if num_slots > 30 then timeout + ((num_slots : ℚ) - 30) * 0.5 else timeout
  let timeout := if skills_truthy c.required_skills then timeout + 10 else timeout
  let timeout := if c.min_rest_hours < 12 then timeout + 5 else timeout
  min (py_trunc timeout) 180

/-! ## Genetic fallback — `models/shift_optimizer.py` -/

/-- The feasible employee indices for one slot, as used by `_initialize_population`
(lines 203-209) and `_mutate` (line 319). -/
def feasible_options (employees : List EmployeeInput) (slot : SlotRec) : List ℕ :=
  (employees.enum.filter (fun p => is_employee_available_for_slot p.2 slot)).map (·.1)

/-- A gene is either `-1` (unassigned) or a feasibility-filtered employee index.
Initialization and mutation only ever produce such genes, and single-point
crossover recombines parents position by position, so every chromosome the
genetic algorithm manipulates satisfies this predicate (see the closure lemmas
below). -/
def gene_ok (employees : List EmployeeInput) (slot : SlotRec) (g : ℤ) : Bool :=
  g == -1 || (decide (0 ≤ g) && (feasible_options employees slot).contains g.toNat)

def chromosome_ok (employees : List EmployeeInput) (slots : List SlotRec)
    (ch : List ℤ) : Bool :=
  ch.length == slots.length && (ch.zip slots).all (fun p => gene_ok employees p.2 p.1)

/-- `random.choice(options) if options else -1`, with the random draw made
explicit as an index. -/
def choice_or_neg1 (options : List ℕ) (r : ℕ) : ℤ :=
  if options.isEmpty then -1 else (options.getD (r % options.length) 0 : ℤ)

/-- One chromosome of `_initialize_population` (lines 201-210), the random
draws given by `r`. -/
def init_chromosome (employees : List EmployeeInput) (slots : List SlotRec)
    (r : ℕ → ℕ) : List ℤ :=
  (slots.enum).map (fun p => choice_or_neg1 (feasible_options employees p.2) (r p.1))

/-- `_crossover` (lines 297-306), producing the first child
`parent1[:point] + parent2[point:]` (the second is symmetric). -/
def crossover_child (parent1 parent2 : List ℤ) (point : ℕ) : List ℤ :=
  parent1.take point ++ parent2.drop point

/-- `_mutate` (lines 308-321): resample the gene at `point` from the slot's
feasible option set. -/
def mutate (individual : List ℤ) (employees : List EmployeeInput)
    (slots : List SlotRec) (point r : ℕ) : List ℤ :=
  if individual.isEmpty then individual
  else individual.set point (choice_or_neg1 (feasible_options employees
    (slots.getD point default)) r)

/-! ### `_calculate_assignment_confidence` (lines 359-408) -/

def calculate_assignment_confidence (employee : EmployeeInput) (slot : SlotRec)
    (current_hours : ℕ) : ℚ :=
  let performance_factor : ℚ := 0.4 + employee.performance_score / 5 * 0.6
  let required := slot.required_skills.getD []
  let skill_factor : ℚ :=
    if !required.isEmpty then
      (if required.all (fun sk => employee.skills.contains sk) then 1 else 0.6)
    else 1
  let hour_utilization : ℚ := (current_hours : ℚ) / (max employee.max_hours_per_week 1 : ℕ)
  let fairness_factor : ℚ :=
    if hour_utilization ≤ 0.75 then 1
    else if hour_utilization ≤ 0.9 then 0.85
    else if hour_utilization ≤ 1 then 0.7
    else 0.5
  let availability_factor : ℚ := 1
  let confidence :=
    performance_factor * 0.4 + skill_factor * 0.3 + fairness_factor * 0.2 +
      availability_factor * 0.1
  max 0.5 (min 1 confidence)

/-! ### `_convert_to_shift_assignments` (lines 323-357) -/

/-- In-place update of a Python dict modelled as an association list
(insertion order preserved, unique keys). -/
def upd_assoc {β : Type} (m : List (String × β)) (k : String) (v : β) : List (String × β) :=
  if m.any (fun p => p.1 == k) then m.map (fun p => if p.1 == k then (k, v) else p)
  else m ++ [(k, v)]

/-- `dict.get(k, d)` / `dict.setdefault(k, d)` read. -/
def get_assoc {β : Type} (m : List (String × β)) (k : String) (d : β) : β :=
  (m.lookup k).getD d

def convert_step (employees : List EmployeeInput)
    (st : List (String × ℕ) × List ShiftAssignment) (p : ℤ × SlotRec) :
    List (String × ℕ) × List ShiftAssignment :=
  if p.1 < 0 then st
  else
    let employee := employees.getD p.1.toNat default
    let hours := upd_assoc st.1 employee.id (get_assoc st.1 employee.id 0 + shift_hours)
    let confidence :=
      py_round2 (calculate_assignment_confidence employee p.2 (get_assoc hours employee.id 0))
    (hours, st.2 ++ [{ employee_id := employee.id
                       employee_name := employee.name
                       day := p.2.date
                       slot := p.2.slot
                       confidence := confidence
                       required_skills := p.2.required_skills }])

/-- `_convert_to_shift_assignments`: Python iterates `enumerate(solution)` and
indexes `time_slots[idx]`, i.e. it walks `solution.zip slots`, accumulating the
per-employee hours dict as it goes.  (A gene index out of range would raise in
Python; every chromosome reaching this function satisfies `chromosome_ok`.) -/
def convert_to_shift_assignments (solution : List ℤ) (employees : List EmployeeInput)
    (slots : List SlotRec) : List ShiftAssignment :=
  ((solution.zip slots).foldl (convert_step employees) ([], [])).2

/-! ### `_evaluate_fitness` (lines 213-290) -/

/-- `statistics.pstdev`: the square root of the population variance. -/
noncomputable def pstdev (xs : List ℚ) : ℝ :=
  Real.sqrt ((xs.map (fun x => ((x : ℝ) - (xs.sum : ℝ) / xs.length) ^ 2)).sum / xs.length)

/-- The per-employee `{"morning": _, "afternoon": _, "night": _}` dict. -/
structure QualityCount where
  morning : ℕ
  afternoon : ℕ
  night : ℕ
deriving DecidableEq

/-- The loop state of `_evaluate_fitness` (lines 220-225). -/
structure FitnessAcc where
  assigned_scores : List ℚ
  penalties : ℚ
  hours_by_employee : List (String × ℕ)
  shift_quality_by_employee : List (String × QualityCount)
  weekend_shifts_by_employee : List (String × ℕ)

/-- One iteration of the `for assignment_idx, emp_index in enumerate(individual)`
loop (lines 227-260).  A gene index at or above `len(employees)` would raise
`IndexError` in Python; theorems about this function take gene validity as a
hypothesis. -/
def fitness_step (employees : List EmployeeInput) (c : ShiftConstraint)
    (slots : List SlotRec) (acc : FitnessAcc) (p : ℕ × ℤ) : FitnessAcc :=
  if p.2 < 0 then { acc with penalties := acc.penalties + 1 }
  else
    let employee := employees.getD p.2.toNat default
    let acc := { acc with
      assigned_scores := acc.assigned_scores ++ [employee.performance_score]
      hours_by_employee := upd_assoc acc.hours_by_employee employee.id
        (get_assoc acc.hours_by_employee employee.id 0 + shift_hours) }
    let acc :=
      if !slots.isEmpty && p.1 < slots.length then
        let slot := slots.getD p.1 default
        let q := get_assoc acc.shift_quality_by_employee employee.id ⟨0, 0, 0⟩
        let acc :=
          match slot.slot with
          | .MORNING =>
            { acc with shift_quality_by_employee := (upd_assoc
                acc.shift_quality_by_employee employee.id { q with morning := q.morning + 1 }) }
          | .AFTERNOON =>
            { acc with shift_quality_by_employee := (upd_assoc
                acc.shift_quality_by_employee employee.id
                { q with afternoon := q.afternoon + 1 }) }
          | .NIGHT =>
            { acc with
              shift_quality_by_employee := (upd_assoc acc.shift_quality_by_employee
                employee.id { q with night := q.night + 1 })
              penalties := acc.penalties + 0.5 }
        if py_weekday slot.date ≥ 5 then
          { acc with
            weekend_shifts_by_employee := (upd_assoc acc.weekend_shifts_by_employee
              employee.id (get_assoc acc.weekend_shifts_by_employee employee.id 0 + 1))
            penalties := acc.penalties + 0.3 }
        else acc
      else acc
    if get_assoc acc.hours_by_employee employee.id 0 > c.max_hours_per_week then
      { acc with penalties := acc.penalties + 2 }
    else acc

/-- `ShiftOptimizer._evaluate_fitness` (lines 213-290). -/
noncomputable def evaluate_fitness (individual : List ℤ) (employees : List EmployeeInput)
    (c : ShiftConstraint) (slots : List SlotRec) : ℝ :=
  let acc := individual.enum.foldl (fitness_step employees c slots)
    { assigned_scores := [], penalties := 0, hours_by_employee := []
      shift_quality_by_employee := [], weekend_shifts_by_employee := [] }
  if acc.assigned_scores.isEmpty then 0
  else
    let efficiency : ℝ := (acc.assigned_scores.sum : ℝ) / (acc.assigned_scores.length * 5)
    let hours_fairness : ℝ :=
      if acc.hours_by_employee.length > 1 then
        1 - pstdev (acc.hours_by_employee.map (fun p => (p.2 : ℚ))) /
          (if c.max_hours_per_week == 0 then 1 else (c.max_hours_per_week : ℝ))
      else 1
    let quality_fairness : ℝ :=
      if !acc.shift_quality_by_employee.isEmpty then
        let night_shifts := acc.shift_quality_by_employee.map (fun p => (p.2.night : ℚ))
        if night_shifts.length > 1 then
          1 - min 0.3 (pstdev night_shifts /
            max 1 ((night_shifts.sum : ℝ) / night_shifts.length))
        else 1
      else 1
    let weekend_fairness : ℝ :=
      if !acc.weekend_shifts_by_employee.isEmpty then
        let weekend_counts := acc.weekend_shifts_by_employee.map (fun p => (p.2 : ℚ))
        if weekend_counts.length > 1 then
          1 - min 0.2 (pstdev weekend_counts /
            max 1 ((weekend_counts.sum : ℝ) / weekend_counts.length))
        else 1
      else 1
    let fairness := hours_fairness * 0.5 + quality_fairness * 0.3 + weekend_fairness * 0.2
    max 0 (efficiency * 0.4 + fairness * 0.3 - (acc.penalties : ℝ) * 0.01)

/-- GA knobs (`__init__`, lines 26-38): generation cap and early-stop
threshold used at lines 124 and 135. -/
def ga_generations : ℕ := 120

def early_stop_threshold : ℝ := 0.96

/-! ## Orchestration — `ShiftOptimizer.optimize_shifts` (lines 44-100) -/

/-- The `schedule` field of any response `optimize_shifts` can return for the
given input: either the exact solver succeeded with a non-empty schedule, or it
succeeded with an empty schedule and the genetic fallback produced the result.
(A `RuntimeError` from the solver escapes `optimize_shifts` — the blanket
`except` at line 98 logs and re-raises — so no schedule is returned then.) -/
def returned_schedule (employees : List EmployeeInput) (c : ShiftConstraint)
    (start_date end_date : ℕ) (schedule : List ShiftAssignment) : Prop :=
  let slots := create_time_slots start_date end_date c
  (∃ sel, satisfies_model employees slots c sel = true ∧
      schedule = schedule_of employees slots c sel ∧ schedule ≠ []) ∨
  ((∃ sel, satisfies_model employees slots c sel = true ∧
      schedule_of employees slots c sel = []) ∧
   ∃ ch, chromosome_ok employees slots ch = true ∧
      schedule = convert_to_shift_assignments ch employees slots)

/-- One call of the exact solver: `RuntimeError` (`INFEASIBLE`) or a schedule
plus the uncovered-slot count. -/
inductive SolverOutcome where
  | failure
  | success : List ShiftAssignment → ℕ → SolverOutcome

/-- The exact-vs-fallback decision inside `optimize_shifts` (lines 67-73):
the fallback runs only on `if not schedule:`; an exception from the solver
propagates out of the call (line 98-100 re-raise). -/
def optimize_shifts_flow (exact : SolverOutcome) (ga_schedule : List ShiftAssignment) :
    Except String (List ShiftAssignment × String) :=
  match exact with
  | .failure => .error "TimefoldHybridSolver could not find a feasible solution"
  | .success schedule _uncovered =>
      if schedule.isEmpty then .ok (ga_schedule, "genetic_fallback")
      else .ok (schedule, "timefold_cp_sat")

/-! ## HTTP endpoint — `routers/shifts.py::generate_optimized_shifts` (lines 19-50) -/

structure HttpReply where
  status : ℕ
  detail : String
deriving DecidableEq

/-- The endpoint's control flow.  The whole body sits in a `try` block; an
empty employee list raises `HTTPException(status_code=400, ...)` — but
`HTTPException` is an `Exception`, so the blanket `except Exception` at line 48
catches it and re-raises `HTTPException(500, f"Optimization failed: {e}")`.
`optimize_result` stands for what `shift_optimizer.optimize_shifts` does when
it is reached. -/
def generate_optimized_shifts (employees : List EmployeeInput)
    (optimize_result : Except String (List ShiftAssignment)) : HttpReply :=
  let try_body : Except String (List ShiftAssignment) :=
    if employees.isEmpty then .error "400: At least one employee is required"
    else optimize_result
  match try_body with
  | .ok _ => { status := 200, detail := "" }
  | .error e => { status := 500, detail := "Optimization failed: " ++ e }

/-! ## Constraint validation — `ShiftOptimizer.validate_constraints` (lines 687-708) -/

structure ValidationResult where
  valid : Bool
  warnings : List String
  errors : List String
  recommendations : List String
deriving DecidableEq

def validate_constraints (max_hours min_rest _max_consecutive : ℤ) : ValidationResult :=
  let warnings :=
    (if max_hours > 60 then ["Max weekly hours exceeds recommended 60h limit"] else []) ++
    (if max_hours < 24 then ["Low max hours may lead to understaffing"] else [])
  let errors := if min_rest < 8 then ["Min rest must be at least 8h"] else []
  { valid := !decide (min_rest < 8)
    warnings := warnings
    errors := errors
    recommendations := ["Align constraints with labor regulations"] }

/-! ## Supporting lemmas -/

/-- Indexing a `flatMap` over `List.range` whose pieces all have length `L`. -/
lemma getD_flatMap_const_length {α : Type} [Inhabited α] (g : ℕ → List α) (L : ℕ)
    (hL : ∀ d, (g d).length = L) (hL0 : 0 < L) :
    ∀ n k, k < n * L →
      ((List.range n).flatMap g).getD k default = (g (k / L)).getD (k % L) default := by
  intro n
  induction n with
  | zero => intro k hk; rw [Nat.zero_mul] at hk; omega
  | succ m ih =>
      intro k hk
      have hk' : k < m * L + L := by
        have hmul : (m + 1) * L = m * L + L := by ring
        omega
      have hlen : ((List.range m).flatMap g).length = m * L := by
        rw [List.length_flatMap]
        have hrepl : (List.range m).map (List.length ∘ g) =
            List.replicate ((List.range m).map (List.length ∘ g)).length L := by
          apply List.eq_replicate_of_mem
          intro x hx
          rcases List.mem_map.mp hx with ⟨d, _, rfl⟩
          exact hL d
        rw [hrepl, List.sum_replicate]
        simp [smul_eq_mul]
      rw [List.range_succ, List.flatMap_append]
      by_cases hkm : k < m * L
      · rw [List.getD_append _ _ _ _ (by omega)]
        exact ih k hkm
      · rw [List.getD_append_right _ _ _ _ (by omega)]
        have hdiv : k / L = m := by
          have h2 : k = (k - m * L) + m * L := by omega
          rw [h2, Nat.add_mul_div_right _ _ hL0, Nat.div_eq_of_lt (by omega)]
          omega
        have hmod : k % L = k - m * L := by
          have h2 : k = (k - m * L) + m * L := by omega
          conv =>
            lhs
            rw [h2]
          rw [Nat.add_mul_mod_self_right, Nat.mod_eq_of_lt (by omega)]
        simp [List.flatMap_cons, hdiv, hmod, hlen]

lemma length_create_time_slots (start_date end_date : ℕ) (c : ShiftConstraint) :
    (create_time_slots start_date end_date c).length = (end_date + 1 - start_date) * 3 := by
  unfold create_time_slots
  rw [List.length_flatMap]
  have hrepl : (List.range (end_date + 1 - start_date)).map
      (List.length ∘ fun d => slot_types.map (fun t =>
        ({ date := start_date + d
           slot := t
           required_employees := 1
           required_skills := List.lookup (str_lower t.value)
             (c.required_skills.getD []) } : SlotRec))) =
      List.replicate ((List.range (end_date + 1 - start_date)).map
        (List.length ∘ fun d => slot_types.map (fun t =>
          ({ date := start_date + d
             slot := t
             required_employees := 1
             required_skills := List.lookup (str_lower t.value)
               (c.required_skills.getD []) } : SlotRec)))).length 3 := by
    apply List.eq_replicate_of_mem
    intro x hx
    rcases List.mem_map.mp hx with ⟨d, _, rfl⟩
    simp [slot_types]
  rw [hrepl, List.sum_replicate]
  simp [smul_eq_mul]

lemma getD_create_time_slots (start_date end_date : ℕ) (c : ShiftConstraint) (k : ℕ)
    (hk : k < (end_date + 1 - start_date) * 3) :
    (create_time_slots start_date end_date c).getD k default =
      { date := start_date + k / 3
        slot := slot_types.getD (k % 3) .MORNING
        required_employees := 1
        required_skills := List.lookup (str_lower (slot_types.getD (k % 3) .MORNING).value)
          (c.required_skills.getD []) } := by
  unfold create_time_slots
  rw [getD_flatMap_const_length _ 3 (fun d => by simp [slot_types]) (by norm_num) _ k hk]
  have h3 : k % 3 < 3 := Nat.mod_lt _ (by norm_num)
  set m := k % 3 with hm
  interval_cases m <;> simp [slot_types]

/-! ## Claim theorems -/

/-- C5: for every period with `start_date ≤ end_date`, `_create_time_slots`
returns exactly `(days in the inclusive period) × 3` slots, and the slot at
index `k` lies on day `start_date + k / 3` and carries the shift type at
position `k % 3` of the fixed order `MORNING, AFTERNOON, NIGHT` — i.e. the
sequence is ordered by ascending date and, within each date, in that fixed
shift-type order.  The generator is a pure function of its arguments, so two
calls with identical inputs return identical, identically ordered sequences. -/
theorem create_time_slots_spec (start_date end_date : ℕ) (c : ShiftConstraint)
    (h : start_date ≤ end_date) :
    (create_time_slots start_date end_date c).length = (end_date - start_date + 1) * 3 ∧
    (∀ k, k < (create_time_slots start_date end_date c).length →
      (create_time_slots start_date end_date c).getD k default =
        { date := start_date + k / 3
          slot := slot_types.getD (k % 3) .MORNING
          required_employees := 1
          required_skills := List.lookup (str_lower (slot_types.getD (k % 3) .MORNING).value)
            (c.required_skills.getD []) }) := by
  constructor
  · rw [length_create_time_slots]
    congr 1
    omega
  · intro k hk
    rw [length_create_time_slots] at hk
    exact getD_create_time_slots start_date end_date c k hk

/-- Closed witness for `create_time_slots_spec` at a concrete two-day period. -/
theorem create_time_slots_spec_witness :
    (create_time_slots 4 5 { max_hours_per_week := 40, min_rest_hours := 12
                             max_consecutive_days := 6, required_skills := none }).length =
      (5 - 4 + 1) * 3 :=
  (create_time_slots_spec 4 5 _ (by norm_num)).1

/-- C7: `validate_constraints` returns `valid = false` together with an error
message exactly when `min_rest_hours < 8`; `max_hours_per_week > 60` or
`< 24` only add warnings while `valid` stays `true`.  The function is a pure
record constructor over the three numbers — it performs no scheduling. -/
theorem validate_constraints_spec (max_hours min_rest max_consecutive : ℤ) :
    ((validate_constraints max_hours min_rest max_consecutive).valid = false ↔ min_rest < 8) ∧
    ((validate_constraints max_hours min_rest max_consecutive).errors ≠ [] ↔ min_rest < 8) ∧
    (8 ≤ min_rest → (validate_constraints max_hours min_rest max_consecutive).valid = true) ∧
    (max_hours > 60 → "Max weekly hours exceeds recommended 60h limit" ∈
      (validate_constraints max_hours min_rest max_consecutive).warnings) ∧
    (max_hours < 24 → "Low max hours may lead to understaffing" ∈
      (validate_constraints max_hours min_rest max_consecutive).warnings) ∧
    (max_hours ≤ 60 → 24 ≤ max_hours →
      (validate_constraints max_hours min_rest max_consecutive).warnings = []) := by
  unfold validate_constraints
  refine ⟨?_, ?_, ?_, ?_, ?_, ?_⟩
  · constructor
    · intro hv
      by_contra hlt
      simp [decide_eq_false hlt] at hv
    · intro hlt
      simp [hlt]
  · constructor
    · intro he
      by_contra hlt
      simp [hlt] at he
    · intro hlt
      simp [hlt]
  · intro hge
    simp [decide_eq_false (by omega : ¬ min_rest < 8)]
  · intro hgt
    simp [hgt]
  · intro hlt
    simp [hlt]
  · intro h1 h2
    simp [if_neg (by omega : ¬ max_hours > 60), if_neg (by omega : ¬ max_hours < 24)]

/-- Closed witness for `validate_constraints_spec`: a request with
`min_rest_hours = 6` yields `valid = false` with an error, and
`max_hours = 70` yields the over-60 warning. -/
theorem validate_constraints_spec_witness :
    (validate_constraints 70 6 6).valid = false ∧
    (validate_constraints 70 6 6).errors ≠ [] ∧
    "Max weekly hours exceeds recommended 60h limit" ∈ (validate_constraints 70 6 6).warnings :=
  ⟨(validate_constraints_spec 70 6 6).1.mpr (by norm_num),
   (validate_constraints_spec 70 6 6).2.1.mpr (by norm_num),
   (validate_constraints_spec 70 6 6).2.2.2.1 (by norm_num)⟩

/-- C8: the adaptive time budget equals base 60, plus 2 per employee beyond
20, plus 0.5 per slot beyond 30, plus 10 if any required skills are
configured (a non-empty `required_skills` mapping), plus 5 if
`min_rest_hours < 12`, truncated to an integer and capped at 180. -/
theorem calculate_adaptive_timeout_spec (num_employees num_slots : ℕ) (c : ShiftConstraint) :
    calculate_adaptive_timeout num_employees num_slots c =
      min (py_trunc ((60 : ℚ) + ((num_employees - 20 : ℕ) : ℚ) * 2 +
        ((num_slots - 30 : ℕ) : ℚ) * 0.5 +
        (if skills_truthy c.required_skills then 10 else 0) +
        (if c.min_rest_hours < 12 then 5 else 0))) 180 := by
  unfold calculate_adaptive_timeout
  refine congrArg (fun q => min (py_trunc q) 180) ?_
  split_ifs <;>
    first
    | (rw [Nat.cast_sub (by omega), Nat.cast_sub (by omega)]; ring)
    | (rw [Nat.cast_sub (by omega), Nat.sub_eq_zero_of_le (by omega)]; push_cast; ring)
    | (rw [Nat.sub_eq_zero_of_le (by omega), Nat.cast_sub (by omega)]; push_cast; ring)
    | (rw [Nat.sub_eq_zero_of_le (by omega), Nat.sub_eq_zero_of_le (by omega)]; push_cast; ring)

/-- C9 (code bug): a request with an empty employee list is answered with an
HTTP 500 response, not the intended 400.  The `raise HTTPException(400, ...)`
sits inside the endpoint's `try` block, and `HTTPException` is an `Exception`,
so the blanket `except Exception` at routers/shifts.py line 48 catches it and
re-raises `HTTPException(500, "Optimization failed: ...")`.  The claim says the
rejection is a 400-class client error; the code returns a 500-class failure
(the rejection does happen before any solving — the optimizer outcome is
irrelevant to the result). -/
theorem generate_empty_employees_returns_500
    (optimize_result : Except String (List ShiftAssignment)) :
    (generate_optimized_shifts [] optimize_result).status = 500 ∧
    (generate_optimized_shifts [] optimize_result).status ≠ 400 ∧
    (generate_optimized_shifts [] optimize_result).detail =
      "Optimization failed: 400: At least one employee is required" := by
  refine ⟨rfl, by norm_num [generate_optimized_shifts], rfl⟩

/-! ## A concrete infeasible exact-solver instance (used for C3) -/

/-- One employee, available for every shift of a single Monday. -/
def emp_all_monday : EmployeeInput :=
  { id := "e1", name := "E One", skills := []
    performance_score := 3, max_hours_per_week := 40
    availability := [("monday", ["morning", "afternoon", "night"])] }

/-- A weekly cap of 8 hours (one shift). -/
def c_cap8 : ShiftConstraint :=
  { max_hours_per_week := 8, min_rest_hours := 12, max_consecutive_days := 6
    required_skills := none }

/-- The three slots of Monday 1970-01-05 (absolute day 4). -/
def slots_monday : List SlotRec := create_time_slots 4 4 c_cap8

/-- The CP-SAT model of `emp_all_monday` / `slots_monday` / `c_cap8` is
unsatisfiable: coverage forces all three Monday slots onto the only employee
(24 h), but the hours cap admits at most `min(40, 8) = 8` h.  On this input
`solver.Solve` returns `INFEASIBLE` and line 167 of timefold_hybrid.py raises
`RuntimeError`. -/
lemma infeasible_instance_unsat (sel : ℕ → ℕ → Bool) :
    satisfies_model [emp_all_monday] slots_monday c_cap8 sel = false := by
  by_contra hne
  have h : satisfies_model [emp_all_monday] slots_monday c_cap8 sel = true := by
    revert hne
    cases satisfies_model [emp_all_monday] slots_monday c_cap8 sel <;> simp
  rw [satisfies_model] at h
  simp only [Bool.and_eq_true] at h
  obtain ⟨⟨⟨⟨_hdom, hcov⟩, hhrs⟩, _hrest⟩, _hcons⟩ := h
  have hsel : ∀ s, s ∈ [0, 1, 2] → sel 0 s = true := by
    intro s hs
    unfold coverage_ok at hcov
    rw [List.all_eq_true] at hcov
    have hmem : s ∈ List.range slots_monday.length := by
      fin_cases hs <;> decide
    have hc := hcov s hmem
    rw [Bool.or_eq_true] at hc
    rcases hc with hc | hc
    · exfalso
      revert hc
      fin_cases hs <;> decide
    · rw [beq_iff_eq] at hc
      by_contra hv
      rw [Bool.not_eq_true] at hv
      fin_cases hs <;>
        (rw [show List.range [emp_all_monday].length = [0] from rfl] at hc
         rw [List.countP_cons, List.countP_nil] at hc
         rw [hv] at hc
         simp at hc)
  unfold hours_ok at hhrs
  rw [List.all_eq_true] at hhrs
  have h0 := hhrs 0 (by decide)
  rw [Bool.or_eq_true] at h0
  rcases h0 with h0 | h0
  · revert h0
    decide
  · have hc3 : (List.range slots_monday.length).countP
        (fun s => has_var [emp_all_monday] slots_monday c_cap8 0 s && sel 0 s) = 3 := by
      rw [show List.range slots_monday.length = [0, 1, 2] from rfl]
      simp only [List.countP_cons, List.countP_nil,
        hsel 0 (by simp), hsel 1 (by simp), hsel 2 (by simp),
        show has_var [emp_all_monday] slots_monday c_cap8 0 0 = true from by decide,
        show has_var [emp_all_monday] slots_monday c_cap8 0 1 = true from by decide,
        show has_var [emp_all_monday] slots_monday c_cap8 0 2 = true from by decide]
      decide
    rw [hc3] at h0
    revert h0
    decide

/-- C3 (amended): the fallback decision in `optimize_shifts` keys on an
*empty* exact-solver result, not on infeasibility.  (1) An empty exact result
falls back to the genetic schedule and still returns a response; (2) a
non-empty exact result is returned as-is; (3) an infeasible exact solve
(`RuntimeError`) aborts the whole optimization call with an error instead of
falling back; and (4) infeasibility is reachable — a concrete input admits no
selection satisfying the solver's hard constraints. -/
theorem optimize_flow_fallback_spec :
    (∀ uncovered ga_schedule,
      optimize_shifts_flow (.success [] uncovered) ga_schedule =
        .ok (ga_schedule, "genetic_fallback")) ∧
    (∀ schedule uncovered ga_schedule, schedule ≠ [] →
      optimize_shifts_flow (.success schedule uncovered) ga_schedule =
        .ok (schedule, "timefold_cp_sat")) ∧
    (∀ ga_schedule, optimize_shifts_flow .failure ga_schedule =
      .error "TimefoldHybridSolver could not find a feasible solution") ∧
    (∀ sel, satisfies_model [emp_all_monday] slots_monday c_cap8 sel = false) := by
  refine ⟨fun _ _ => rfl, ?_, fun _ => rfl, infeasible_instance_unsat⟩
  intro schedule uncovered ga_schedule hne
  rw [optimize_shifts_flow]
  rw [if_neg (by simpa [List.isEmpty_iff] using hne)]

/-- Closed witness for `optimize_flow_fallback_spec`. -/
theorem optimize_flow_fallback_spec_witness :
    optimize_shifts_flow
        (.success [{ employee_id := "e1", employee_name := "E One", day := 4
                     slot := .MORNING, confidence := 0.8, required_skills := none }] 0) [] =
      .ok ([{ employee_id := "e1", employee_name := "E One", day := 4
              slot := .MORNING, confidence := 0.8, required_skills := none }],
        "timefold_cp_sat") :=
  optimize_flow_fallback_spec.2.1 _ 0 [] (by simp)

/-- C3 counterexample: at the concrete input where the exact solver signals
infeasibility, `optimize_shifts` produces an error — it aborts the call rather
than returning a schedule response via the fallback. -/
theorem solver_infeasibility_aborts :
    optimize_shifts_flow .failure [] =
      .error "TimefoldHybridSolver could not find a feasible solution" := rfl

/-! ## C4 — the two feasibility predicates agree on generated slots -/

lemma required_skills_of_mem_create_time_slots {slot : SlotRec} {start_date end_date : ℕ}
    {c : ShiftConstraint} (hs : slot ∈ create_time_slots start_date end_date c) :
    slot.required_skills = List.lookup (str_lower slot.slot.value) (c.required_skills.getD []) := by
  rcases List.mem_flatMap.mp hs with ⟨d, _, hmem⟩
  rcases List.mem_map.mp hmem with ⟨t, _, rfl⟩
  rfl

/-- The two feasibility predicates agree on every generated slot (shared
lemma; claim C4 restates it). -/
lemma is_available_eq_generated {employee : EmployeeInput} {c : ShiftConstraint}
    {start_date end_date : ℕ} {slot : SlotRec}
    (hs : slot ∈ create_time_slots start_date end_date c) :
    is_available employee slot c = is_employee_available_for_slot employee slot := by
  have hreq := required_skills_of_mem_create_time_slots hs
  unfold is_available is_employee_available_for_slot
  cases hav : avail_ok employee slot
  · simp
  · simp only [Bool.not_true, Bool.false_eq_true, if_false]
    cases hcrs : c.required_skills with
    | none => simp [skills_truthy, hreq, hcrs]
    | some m =>
        cases hm : m.isEmpty
        · have hmm : (c.required_skills.getD []) = m := by rw [hcrs]; rfl
          simp only [skills_truthy, hcrs, hm, Bool.not_false, if_true, hreq, hmm]
          cases h1 : ((List.lookup (str_lower slot.slot.value) m).getD []).isEmpty <;>
            cases h2 : skills_intersect ((List.lookup (str_lower slot.slot.value) m).getD [])
              employee.skills <;>
            simp [h1, h2]
        · have : m = [] := List.isEmpty_iff.mp hm
          subst this
          simp [skills_truthy, hreq, hcrs]

/-- C4: on every slot produced by the slot generator, the exact solver's
`_is_available` and the genetic solver's `_is_employee_available_for_slot`
return the same boolean, and that boolean is: the slot's shift type is in the
employee's availability for the slot's weekday AND (the slot has no required
skills OR the employee's skill set intersects them). -/
theorem feasibility_filters_agree (employee : EmployeeInput) (c : ShiftConstraint)
    (start_date end_date : ℕ) (slot : SlotRec)
    (hs : slot ∈ create_time_slots start_date end_date c) :
    is_available employee slot c = is_employee_available_for_slot employee slot ∧
    is_employee_available_for_slot employee slot =
      (avail_ok employee slot &&
        ((slot.required_skills.getD []).isEmpty ||
          skills_intersect (slot.required_skills.getD []) employee.skills)) := by
  refine ⟨is_available_eq_generated hs, ?_⟩
  unfold is_employee_available_for_slot
  cases hav : avail_ok employee slot <;> simp

/-- Closed witness for `feasibility_filters_agree` at a concrete employee and
the first generated Monday slot. -/
theorem feasibility_filters_agree_witness :
    is_available emp_all_monday ((create_time_slots 4 4 c_cap8).getD 0 default) c_cap8 =
      is_employee_available_for_slot emp_all_monday
        ((create_time_slots 4 4 c_cap8).getD 0 default) :=
  (feasibility_filters_agree emp_all_monday c_cap8 4 4 _ (by decide)).1

/-! ## Rounding bounds -/

lemma py_round_half_even_ge (x : ℚ) (a : ℤ) (h : (a : ℚ) ≤ x) :
    a ≤ py_round_half_even x := by
  simp only [py_round_half_even]
  have hf : a ≤ ⌊x⌋ := Int.le_floor.mpr h
  split_ifs <;> omega

lemma py_round_half_even_le (x : ℚ) (b : ℤ) (h : x ≤ (b : ℚ)) :
    py_round_half_even x ≤ b := by
  simp only [py_round_half_even]
  have hfb : ⌊x⌋ ≤ b := by
    rw [show b = ⌊(b : ℚ)⌋ from (Int.floor_intCast b).symm]
    exact Int.floor_le_floor h
  have hkey : ¬(x - ⌊x⌋ < 1/2) → ⌊x⌋ + 1 ≤ b := by
    intro hr
    push_neg at hr
    have hx : (⌊x⌋ : ℚ) < x := by linarith
    have hlt : (⌊x⌋ : ℚ) < (b : ℚ) := lt_of_lt_of_le hx h
    exact Int.add_one_le_iff.mpr (by exact_mod_cast hlt)
  split_ifs with h1 h2 h3
  · exact hfb
  · exact hkey h1
  · exact hfb
  · exact hkey h1

lemma py_round2_bounds (q : ℚ) (a b : ℤ) (hl : (a : ℚ) / 100 ≤ q) (hu : q ≤ (b : ℚ) / 100) :
    (a : ℚ) / 100 ≤ py_round2 q ∧ py_round2 q ≤ (b : ℚ) / 100 := by
  unfold py_round2
  constructor
  · have h1 : (a : ℚ) ≤ q * 100 := by linarith
    have h2 := py_round_half_even_ge (q * 100) a h1
    have h3 : (a : ℚ) ≤ (py_round_half_even (q * 100) : ℚ) := by exact_mod_cast h2
    linarith
  · have h1 : q * 100 ≤ (b : ℚ) := by linarith
    have h2 := py_round_half_even_le (q * 100) b h1
    have h3 : ((py_round_half_even (q * 100)) : ℚ) ≤ (b : ℚ) := by exact_mod_cast h2
    linarith

lemma exact_confidence_bounds (perf : ℚ) :
    confidence_floor ≤ exact_confidence perf ∧ exact_confidence perf ≤ 0.95 := by
  unfold exact_confidence
  exact ⟨le_max_left _ _, max_le (by norm_num [confidence_floor]) (min_le_left _ _)⟩

lemma calculate_assignment_confidence_bounds (employee : EmployeeInput) (slot : SlotRec)
    (current_hours : ℕ) :
    (0.5 : ℚ) ≤ calculate_assignment_confidence employee slot current_hours ∧
      calculate_assignment_confidence employee slot current_hours ≤ 1 := by
  unfold calculate_assignment_confidence
  exact ⟨le_max_left _ _, max_le (by norm_num) (min_le_left _ _)⟩

/-! ## Schedule membership lemmas -/

lemma mem_schedule_of {employees : List EmployeeInput} {slots : List SlotRec}
    {c : ShiftConstraint} {sel : ℕ → ℕ → Bool} {a : ShiftAssignment} :
    a ∈ schedule_of employees slots c sel ↔
      ∃ e s, e < employees.length ∧ s < slots.length ∧
        has_var employees slots c e s = true ∧ sel e s = true ∧
        a = { employee_id := (employees.getD e default).id
              employee_name := (employees.getD e default).name
              day := (slots.getD s default).date
              slot := (slots.getD s default).slot
              confidence :=
                py_round2 (exact_confidence (employees.getD e default).performance_score)
              required_skills := (slots.getD s default).required_skills } := by
  unfold schedule_of
  simp only [List.mem_flatMap, List.mem_filterMap, List.mem_range]
  constructor
  · rintro ⟨e, he, s, hs, hif⟩
    by_cases hc : (has_var employees slots c e s && sel e s) = true
    · rw [if_pos hc] at hif
      rw [Bool.and_eq_true] at hc
      exact ⟨e, s, he, hs, hc.1, hc.2, (Option.some_inj.mp hif).symm⟩
    · rw [if_neg hc] at hif
      exact absurd hif (by simp)
  · rintro ⟨e, s, he, hs, h1, h2, rfl⟩
    exact ⟨e, he, s, hs, by rw [if_pos (by rw [h1, h2]; rfl)]⟩

/-- Every assignment emitted by `_convert_to_shift_assignments` carries a
confidence computed by `_calculate_assignment_confidence` and rounded to two
decimals. -/
lemma convert_confidence_shape (solution : List ℤ) (employees : List EmployeeInput)
    (slots : List SlotRec) :
    ∀ a ∈ convert_to_shift_assignments solution employees slots,
      ∃ e slotr hrs, a.confidence = py_round2 (calculate_assignment_confidence e slotr hrs) := by
  unfold convert_to_shift_assignments
  generalize (solution.zip slots) = l
  suffices hgen : ∀ st : List (String × ℕ) × List ShiftAssignment,
      (∀ a ∈ st.2, ∃ e slotr hrs,
        a.confidence = py_round2 (calculate_assignment_confidence e slotr hrs)) →
      ∀ a ∈ (l.foldl (convert_step employees) st).2,
        ∃ e slotr hrs, a.confidence = py_round2 (calculate_assignment_confidence e slotr hrs) by
    exact hgen ([], []) (by simp)
  induction l with
  | nil => intro st hst a ha; exact hst a ha
  | cons x t ih =>
      intro st hst
      rw [List.foldl_cons]
      apply ih
      intro a ha
      unfold convert_step at ha
      by_cases hx : x.1 < 0
      · rw [if_pos hx] at ha
        exact hst a ha
      · rw [if_neg hx] at ha
        simp only at ha
        rcases List.mem_append.mp ha with ha | ha
        · exact hst a ha
        · rcases List.mem_singleton.mp ha with rfl
          exact ⟨_, _, _, rfl⟩

/-- C6 (amended): every assignment emitted on the exact-solver path has
confidence equal to `clamp(performance_score / 5 + 0.2, 0.55, 0.95)` *rounded
to two decimals* (`confidence=round(confidence, 2)`, timefold_hybrid.py line
184), and every assignment emitted by the genetic fallback's converter carries
the weighted 40%/30%/20%/10% `_calculate_assignment_confidence` score, clamped
to [0.5, 1.0] and likewise rounded.  Consequently every assignment on either
path has confidence in [0.5, 1.0]. -/
theorem assignment_confidence_spec :
    (∀ (employees : List EmployeeInput) (slots : List SlotRec) (c : ShiftConstraint)
      (sel : ℕ → ℕ → Bool) a, a ∈ schedule_of employees slots c sel →
      (∃ e, e < employees.length ∧ a.employee_id = (employees.getD e default).id ∧
        a.confidence =
          py_round2 (exact_confidence (employees.getD e default).performance_score)) ∧
      (0.5 : ℚ) ≤ a.confidence ∧ a.confidence ≤ 1) ∧
    (∀ (solution : List ℤ) (employees : List EmployeeInput) (slots : List SlotRec) a,
      a ∈ convert_to_shift_assignments solution employees slots →
      (∃ e slotr hrs,
        a.confidence = py_round2 (calculate_assignment_confidence e slotr hrs)) ∧
      (0.5 : ℚ) ≤ a.confidence ∧ a.confidence ≤ 1) := by
  constructor
  · intro employees slots c sel a ha
    rcases mem_schedule_of.mp ha with ⟨e, s, he, hs, h1, h2, rfl⟩
    refine ⟨⟨e, he, rfl, rfl⟩, ?_, ?_⟩
    · have hb := exact_confidence_bounds (employees.getD e default).performance_score
      have := py_round2_bounds (exact_confidence (employees.getD e default).performance_score)
        55 95 (by norm_num [confidence_floor] at hb ⊢; linarith [hb.1]) (by norm_num at hb ⊢; linarith [hb.2])
      norm_num at this ⊢
      linarith [this.1]
    · have hb := exact_confidence_bounds (employees.getD e default).performance_score
      have := py_round2_bounds (exact_confidence (employees.getD e default).performance_score)
        55 95 (by norm_num [confidence_floor] at hb ⊢; linarith [hb.1]) (by norm_num at hb ⊢; linarith [hb.2])
      norm_num at this ⊢
      linarith [this.2]
  · intro solution employees slots a ha
    rcases convert_confidence_shape solution employees slots a ha with ⟨e, slotr, hrs, heq⟩
    have hb := calculate_assignment_confidence_bounds e slotr hrs
    have hr := py_round2_bounds (calculate_assignment_confidence e slotr hrs) 50 100
      (by norm_num; linarith [hb.1]) (by norm_num; linarith [hb.2])
    refine ⟨⟨e, slotr, hrs, heq⟩, ?_, ?_⟩
    · rw [heq]
      norm_num at hr ⊢
      linarith [hr.1]
    · rw [heq]
      norm_num at hr ⊢
      linarith [hr.2]

/-- The one assignment the exact path emits for `emp_all_monday` when only the
morning slot is selected. -/
def monday_assignment : ShiftAssignment :=
  { employee_id := "e1", employee_name := "E One", day := 4, slot := .MORNING
    confidence := py_round2 (exact_confidence 3), required_skills := none }

/-- Closed witness for `assignment_confidence_spec` at a concrete selection. -/
theorem assignment_confidence_spec_witness :
    (0.5 : ℚ) ≤ monday_assignment.confidence ∧ monday_assignment.confidence ≤ 1 :=
  (assignment_confidence_spec.1 [emp_all_monday] slots_monday c_cap8
    (fun e s => e == 0 && s == 0) monday_assignment
    (by
      rw [show schedule_of [emp_all_monday] slots_monday c_cap8
        (fun e s => e == 0 && s == 0) = [monday_assignment] from rfl]
      exact List.mem_singleton.mpr rfl)).2

/-! ### C6 counterexample instance -/

/-- The pydantic defaults: 40 h cap, 12 h rest, 6 consecutive days, no skills. -/
def c_default : ShiftConstraint :=
  { max_hours_per_week := 40, min_rest_hours := 12, max_consecutive_days := 6
    required_skills := none }

/-- An employee whose performance score hits the rounding: 2.111 / 5 + 0.2 =
0.6222, which `round(_, 2)` turns into 0.62. -/
def emp_frac : EmployeeInput :=
  { id := "e2", name := "E Two", skills := []
    performance_score := 2.111, max_hours_per_week := 40
    availability := [("monday", ["morning"])] }

def slots_monday_default : List SlotRec := create_time_slots 4 4 c_default

/-- The assignment the exact path emits for `emp_frac` on the morning slot. -/
def frac_assignment : ShiftAssignment :=
  { employee_id := "e2", employee_name := "E Two", day := 4, slot := .MORNING
    confidence := py_round2 (exact_confidence (2.111 : ℚ)), required_skills := none }

/-- C6 counterexample: on a valid exact-solver run (the selection satisfies
every hard constraint), the emitted confidence is 0.62, while
`clamp(performance/5 + 0.2, 0.55, 0.95)` is 0.6222 — the claim's equality
fails because line 184 rounds to two decimals. -/
theorem exact_confidence_rounding_counterexample :
    satisfies_model [emp_frac] slots_monday_default c_default
        (fun e s => e == 0 && s == 0) = true ∧
    (schedule_of [emp_frac] slots_monday_default c_default
        (fun e s => e == 0 && s == 0)).map (fun a => a.confidence) = [0.62] ∧
    exact_confidence (2.111 : ℚ) = 0.6222 ∧ ((0.62 : ℚ) = 0.6222 → False) := by
  have hexact : exact_confidence (2.111 : ℚ) = 0.6222 := by
    unfold exact_confidence confidence_floor
    rw [min_eq_right (by norm_num), max_eq_right (by norm_num)]
    norm_num
  refine ⟨by decide, ?_, hexact, by norm_num⟩
  rw [show (schedule_of [emp_frac] slots_monday_default c_default
      (fun e s => e == 0 && s == 0)) = [frac_assignment] from rfl]
  rw [List.map_cons, List.map_nil]
  rw [show frac_assignment.confidence = py_round2 (exact_confidence (2.111 : ℚ)) from rfl]
  rw [hexact]
  have hfl : ⌊(0.6222 : ℚ) * 100⌋ = 62 := by norm_num
  simp only [py_round2, py_round_half_even, hfl]
  rw [if_pos (by norm_num)]
  norm_num

/-! ## List counting utilities -/

lemma countP_flatMap {α β : Type} (l : List α) (f : α → List β) (p : β → Bool) :
    (l.flatMap f).countP p = (l.map (fun x => (f x).countP p)).sum := by
  induction l with
  | nil => simp
  | cons a t ih => simp [List.flatMap_cons, List.countP_append, ih]

lemma countP_filterMap_ite {α β : Type} (l : List α) (cnd : α → Bool) (g : α → β)
    (p : β → Bool) :
    (l.filterMap (fun x => if cnd x then some (g x) else none)).countP p =
      l.countP (fun x => cnd x && p (g x)) := by
  induction l with
  | nil => simp
  | cons a t ih =>
      by_cases h : cnd a = true <;>
        simp [List.filterMap_cons, h, List.countP_cons, ih]

lemma sum_map_range_single (n e0 : ℕ) (he0 : e0 < n) (f : ℕ → ℕ)
    (hzero : ∀ e < n, e ≠ e0 → f e = 0) :
    ((List.range n).map f).sum = f e0 := by
  induction n with
  | zero => omega
  | succ m ih =>
      rw [List.range_succ, List.map_append, List.sum_append]
      by_cases hm : e0 < m
      · rw [ih hm (fun e he hne => hzero e (by omega) hne)]
        simp [hzero m (by omega) (by omega)]
      · have he : e0 = m := by omega
        subst he
        have hz : ((List.range e0).map f).sum = 0 := by
          apply List.sum_eq_zero
          intro x hx
          rcases List.mem_map.mp hx with ⟨e, he, rfl⟩
          rw [List.mem_range] at he
          exact hzero e (by omega) (by omega)
        simp [hz]

lemma getD_map_range {α : Type} [Inhabited α] (n i : ℕ) (hi : i < n) (f : ℕ → α) :
    ((List.range n).map f).getD i default = f i := by
  rw [List.getD_eq_getElem _ _ (by simpa using hi)]
  simp

/-! ## Extracting facts from a satisfied CP-SAT model -/

lemma satisfies_model_parts {employees : List EmployeeInput} {slots : List SlotRec}
    {c : ShiftConstraint} {sel : ℕ → ℕ → Bool}
    (h : satisfies_model employees slots c sel = true) :
    sel_in_domain employees slots c sel = true ∧
    coverage_ok employees slots c sel = true ∧
    hours_ok employees slots c sel = true ∧
    rest_ok employees slots c sel = true ∧
    consecutive_ok employees slots c sel = true := by
  rw [satisfies_model] at h
  simp only [Bool.and_eq_true] at h
  exact ⟨h.1.1.1.1, h.1.1.1.2, h.1.1.2, h.1.2, h.2⟩

/-- The hours-cap constraint, extracted: for every employee index, the number
of selected variables times the shift length is at most the binding cap. -/
lemma model_hours_bound {employees : List EmployeeInput} {slots : List SlotRec}
    {c : ShiftConstraint} {sel : ℕ → ℕ → Bool}
    (h : satisfies_model employees slots c sel = true) (e0 : ℕ)
    (he0 : e0 < employees.length) :
    ((List.range slots.length).countP
        (fun s => has_var employees slots c e0 s && sel e0 s)) * shift_hours ≤
      min (employees.getD e0 default).max_hours_per_week c.max_hours_per_week := by
  have hh := (satisfies_model_parts h).2.2.1
  unfold hours_ok at hh
  rw [List.all_eq_true] at hh
  have := hh e0 (List.mem_range.mpr he0)
  rw [Bool.or_eq_true] at this
  rcases this with hfe | hle
  · rw [List.isEmpty_iff] at hfe
    have hzero : (List.range slots.length).countP
        (fun s => has_var employees slots c e0 s && sel e0 s) = 0 := by
      rw [List.countP_eq_zero]
      intro s hs
      intro habs
      rw [Bool.and_eq_true] at habs
      have : s ∈ (List.range slots.length).filter
          (fun s => has_var employees slots c e0 s) := by
        rw [List.mem_filter]
        exact ⟨hs, habs.1⟩
      rw [hfe] at this
      exact absurd this (List.not_mem_nil s)
    rw [hzero, Nat.zero_mul]
    exact Nat.zero_le _
  · exact of_decide_eq_true hle

/-- The coverage constraint, extracted: a slot with at least one feasible
employee has exactly one selected feasible employee. -/
lemma model_coverage {employees : List EmployeeInput} {slots : List SlotRec}
    {c : ShiftConstraint} {sel : ℕ → ℕ → Bool}
    (h : satisfies_model employees slots c sel = true) (s : ℕ) (hs : s < slots.length)
    (e : ℕ) (hv : has_var employees slots c e s = true) :
    ∃ e1, e1 < employees.length ∧ has_var employees slots c e1 s = true ∧ sel e1 s = true := by
  have hc := (satisfies_model_parts h).2.1
  unfold coverage_ok at hc
  rw [List.all_eq_true] at hc
  have hce := hc s (List.mem_range.mpr hs)
  rw [Bool.or_eq_true] at hce
  have hbound : e < employees.length := by
    unfold has_var at hv
    simp only [Bool.and_eq_true, decide_eq_true_eq] at hv
    exact hv.1.1
  rcases hce with hfe | hcount
  · rw [List.isEmpty_iff] at hfe
    exfalso
    have : e ∈ (List.range employees.length).filter
        (fun e => has_var employees slots c e s) := by
      rw [List.mem_filter]
      exact ⟨List.mem_range.mpr hbound, hv⟩
    rw [hfe] at this
    exact absurd this (List.not_mem_nil e)
  · rw [beq_iff_eq] at hcount
    have hpos : 0 < (List.range employees.length).countP
        (fun e => has_var employees slots c e s && sel e s) := by omega
    rcases List.countP_pos_iff.mp hpos with ⟨e1, he1, hp⟩
    rw [Bool.and_eq_true] at hp
    exact ⟨e1, List.mem_range.mp he1, hp.1, hp.2⟩

/-- If the exact solver's schedule is empty while the model is satisfied, then
no (employee, slot) pair is feasible at all. -/
lemma schedule_of_empty_no_var {employees : List EmployeeInput} {slots : List SlotRec}
    {c : ShiftConstraint} {sel : ℕ → ℕ → Bool}
    (h : satisfies_model employees slots c sel = true)
    (hempty : schedule_of employees slots c sel = []) :
    ∀ e s, has_var employees slots c e s = false := by
  intro e s
  by_contra hne
  have hv : has_var employees slots c e s = true := by
    revert hne
    cases has_var employees slots c e s <;> simp
  have hsb : s < slots.length := by
    unfold has_var at hv
    simp only [Bool.and_eq_true, decide_eq_true_eq] at hv
    exact hv.1.2
  rcases model_coverage h s hsb e hv with ⟨e1, he1, hv1, hs1⟩
  have hmem : ({ employee_id := (employees.getD e1 default).id
                 employee_name := (employees.getD e1 default).name
                 day := (slots.getD s default).date
                 slot := (slots.getD s default).slot
                 confidence :=
                   py_round2 (exact_confidence (employees.getD e1 default).performance_score)
                 required_skills := (slots.getD s default).required_skills } : ShiftAssignment) ∈
      schedule_of employees slots c sel :=
    mem_schedule_of.mpr ⟨e1, s, he1, hsb, hv1, hs1, rfl⟩
  rw [hempty] at hmem
  exact absurd hmem (List.not_mem_nil _)

/-- Employee ids pick out employee indices uniquely when the id list has no
duplicates. -/
lemma eq_of_id_eq {employees : List EmployeeInput}
    (hids : (employees.map (fun emp => emp.id)).Nodup)
    {e1 e2 : ℕ} (he1 : e1 < employees.length) (he2 : e2 < employees.length)
    (heq : (employees.getD e1 default).id = (employees.getD e2 default).id) : e1 = e2 := by
  have h1 : (employees.map (fun emp => emp.id)).get ⟨e1, by simpa using he1⟩ =
      (employees.getD e1 default).id := by
    rw [List.getD_eq_getElem _ _ he1]
    simp
  have h2 : (employees.map (fun emp => emp.id)).get ⟨e2, by simpa using he2⟩ =
      (employees.getD e2 default).id := by
    rw [List.getD_eq_getElem _ _ he2]
    simp
  have := hids.get_inj_iff.mp (h1.trans (heq.trans h2.symm))
  simpa using this

/-- In the exact solver's schedule, the number of assignments carrying
employee `e0`'s id equals the number of selected variables of `e0`. -/
lemma countP_schedule_of {employees : List EmployeeInput} {slots : List SlotRec}
    {c : ShiftConstraint} {sel : ℕ → ℕ → Bool}
    (hids : (employees.map (fun emp => emp.id)).Nodup)
    (e0 : ℕ) (he0 : e0 < employees.length) :
    (schedule_of employees slots c sel).countP
        (fun a => a.employee_id == (employees.getD e0 default).id) =
      (List.range slots.length).countP
        (fun s => has_var employees slots c e0 s && sel e0 s) := by
  unfold schedule_of
  rw [countP_flatMap]
  have hinner : ∀ e, ((List.range slots.length).filterMap (fun s =>
      if has_var employees slots c e s && sel e s then
        some ({ employee_id := (employees.getD e default).id
                employee_name := (employees.getD e default).name
                day := (slots.getD s default).date
                slot := (slots.getD s default).slot
                confidence :=
                  py_round2 (exact_confidence (employees.getD e default).performance_score)
                required_skills := (slots.getD s default).required_skills } : ShiftAssignment)
      else none)).countP (fun a => a.employee_id == (employees.getD e0 default).id) =
      (List.range slots.length).countP (fun s =>
        (has_var employees slots c e s && sel e s) &&
          ((employees.getD e default).id == (employees.getD e0 default).id)) := by
    intro e
    exact countP_filterMap_ite _ _ _ _
  rw [sum_map_range_single employees.length e0 he0 _ ?zero]
  case zero =>
    intro e he hne
    rw [hinner e]
    rw [List.countP_eq_zero]
    intro s _ habs
    simp only [Bool.and_eq_true, beq_iff_eq] at habs
    exact hne (eq_of_id_eq hids he he0 habs.2)
  · rw [hinner e0]
    apply List.countP_congr
    intro s _
    simp

/-- If no `(e, s)` pair is feasible for the exact solver on generated slots,
the genetic algorithm's per-slot option lists are empty too. -/
lemma feasible_options_empty {employees : List EmployeeInput} {c : ShiftConstraint}
    {start_date end_date : ℕ}
    (hnovar : ∀ e s,
      has_var employees (create_time_slots start_date end_date c) c e s = false) :
    ∀ slot ∈ create_time_slots start_date end_date c, feasible_options employees slot = [] := by
  intro slot hslot
  by_contra hne
  rcases List.exists_mem_of_ne_nil _ hne with ⟨i, hi⟩
  unfold feasible_options at hi
  rcases List.mem_map.mp hi with ⟨⟨j, emp⟩, hp, hfst⟩
  rw [List.mem_filter] at hp
  obtain ⟨hpe, hpav⟩ := hp
  rcases List.mem_iff_getElem.mp hslot with ⟨s, hsb, rfl⟩
  rcases List.mem_iff_getElem.mp hpe with ⟨k, hk, hget⟩
  rw [List.getElem_enum] at hget
  have hklen : k < employees.length := by simpa using hk
  obtain ⟨rfl, rfl⟩ : k = j ∧ employees[k] = emp :=
    ⟨congrArg Prod.fst hget, congrArg Prod.snd hget⟩
  have hvar : has_var employees (create_time_slots start_date end_date c) c k s = true := by
    unfold has_var
    simp only [Bool.and_eq_true, decide_eq_true_eq]
    refine ⟨⟨hklen, hsb⟩, ?_⟩
    rw [List.getD_eq_getElem _ _ hklen, List.getD_eq_getElem _ _ hsb]
    rw [is_available_eq_generated (List.getElem_mem hsb)]
    exact hpav
  rw [hnovar k s] at hvar
  exact absurd hvar (by simp)

/-- `_convert_to_shift_assignments` of a chromosome whose genes are all `-1`
is the empty schedule. -/
lemma convert_nil_of_all_neg {solution : List ℤ} {employees : List EmployeeInput}
    {slots : List SlotRec} (h : ∀ p ∈ solution.zip slots, p.1 < 0) :
    convert_to_shift_assignments solution employees slots = [] := by
  unfold convert_to_shift_assignments
  have hgen : ∀ l : List (ℤ × SlotRec), (∀ p ∈ l, p.1 < 0) →
      l.foldl (convert_step employees) (([], []) : List (String × ℕ) × List ShiftAssignment) =
        ([], []) := by
    intro l
    induction l with
    | nil => intro _; rfl
    | cons x t ih =>
        intro hl
        rw [List.foldl_cons]
        rw [show convert_step employees ([], []) x = ([], []) from by
          unfold convert_step
          rw [if_pos (hl x (List.mem_cons_self x t))]]
        exact ih (fun p hp => hl p (List.mem_cons_of_mem x hp))
  rw [hgen _ h]

/-- On an instance with no feasible pair, every chromosome the genetic
algorithm can hold is all-`-1`, so the fallback's schedule is empty. -/
lemma convert_empty_of_no_var {employees : List EmployeeInput} {c : ShiftConstraint}
    {start_date end_date : ℕ} {ch : List ℤ}
    (hch : chromosome_ok employees (create_time_slots start_date end_date c) ch = true)
    (hnovar : ∀ e s,
      has_var employees (create_time_slots start_date end_date c) c e s = false) :
    convert_to_shift_assignments ch employees (create_time_slots start_date end_date c) = [] := by
  apply convert_nil_of_all_neg
  intro p hp
  unfold chromosome_ok at hch
  rw [Bool.and_eq_true, List.all_eq_true] at hch
  have hgene := hch.2 p hp
  unfold gene_ok at hgene
  rw [Bool.or_eq_true] at hgene
  rcases hgene with hgene | hgene
  · rw [beq_iff_eq] at hgene
    omega
  · exfalso
    rw [Bool.and_eq_true] at hgene
    have hopts := feasible_options_empty hnovar p.2 (List.of_mem_zip hp).2
    rw [hopts] at hgene
    exact absurd hgene.2 (by simp)

/-- C1: in every schedule `optimize_shifts` can return on valid input (a
non-empty employee list with distinct ids), each employee's total assigned
hours (8 per assignment) are at most
`min(employee.max_hours_per_week, constraints.max_hours_per_week)`.  On the
exact-solver path this is the model's hard hours-cap constraint.  The genetic
fallback runs only after the exact solver *succeeded with an empty schedule*,
which (by the coverage constraint) happens exactly when no (employee, slot)
pair is feasible; then every chromosome gene is `-1` and the fallback's
schedule is empty, so the bound holds there as well. -/
theorem returned_schedule_hours_spec (employees : List EmployeeInput) (c : ShiftConstraint)
    (start_date end_date : ℕ) (schedule : List ShiftAssignment)
    (_hne : employees ≠ [])
    (hids : (employees.map (fun emp => emp.id)).Nodup)
    (hret : returned_schedule employees c start_date end_date schedule) :
    ∀ e0, e0 < employees.length →
      (schedule.countP (fun a => a.employee_id == (employees.getD e0 default).id)) *
          shift_hours ≤
        min (employees.getD e0 default).max_hours_per_week c.max_hours_per_week := by
  intro e0 he0
  rcases hret with ⟨sel, hsat, rfl, _hnonempty⟩ | ⟨⟨sel0, hsat0, hempty⟩, ch, hch, rfl⟩
  · rw [countP_schedule_of hids e0 he0]
    exact model_hours_bound hsat e0 he0
  · have hnovar := schedule_of_empty_no_var hsat0 hempty
    rw [convert_empty_of_no_var hch hnovar]
    simp

/-- Closed witness for `returned_schedule_hours_spec` on a one-employee,
one-day instance solved by the exact path. -/
theorem returned_schedule_hours_spec_witness :
    ((schedule_of [emp_frac] (create_time_slots 4 4 c_default) c_default
        (fun e s => e == 0 && s == 0)).countP
      (fun a => a.employee_id == ([emp_frac].getD 0 default).id)) * shift_hours ≤
      min ([emp_frac].getD 0 default).max_hours_per_week c_default.max_hours_per_week :=
  returned_schedule_hours_spec [emp_frac] c_default 4 4 _ (by simp) (by simp)
    (Or.inl ⟨fun e s => e == 0 && s == 0, by decide, rfl, by
      rw [show schedule_of [emp_frac] (create_time_slots 4 4 c_default) c_default
        (fun e s => e == 0 && s == 0) = [frac_assignment] from rfl]
      simp⟩) 0 (by norm_num)

/-! ## Day structure of generated slot lists -/

lemma date_getD_create (start_date end_date : ℕ) (c : ShiftConstraint) (s : ℕ)
    (hs : s < (create_time_slots start_date end_date c).length) :
    ((create_time_slots start_date end_date c).getD s default).date = start_date + s / 3 := by
  rw [getD_create_time_slots start_date end_date c s
    (by rwa [length_create_time_slots] at hs)]

lemma mem_date_create {x start_date end_date : ℕ} {c : ShiftConstraint} :
    x ∈ (create_time_slots start_date end_date c).map (fun sl => sl.date) ↔
      ∃ d, d < end_date + 1 - start_date ∧ x = start_date + d := by
  unfold create_time_slots
  rw [List.map_flatMap]
  simp only [List.mem_flatMap, List.mem_range, List.map_map, List.mem_map, Function.comp,
    slot_types, List.mem_cons, List.not_mem_nil, or_false]
  constructor
  · rintro ⟨d, hd, t, _, rfl⟩
    exact ⟨d, hd, rfl⟩
  · rintro ⟨d, hd, rfl⟩
    exact ⟨d, hd, .MORNING, Or.inl rfl, rfl⟩

lemma sorted_days_create (start_date end_date : ℕ) (c : ShiftConstraint) :
    sorted_days (create_time_slots start_date end_date c) =
      (List.range (end_date + 1 - start_date)).map (fun d => start_date + d) := by
  unfold sorted_days
  have hnd_t : ((List.range (end_date + 1 - start_date)).map
      (fun d => start_date + d)).Nodup :=
    List.Nodup.map (fun a b hab => by omega) (List.nodup_range _)
  have hsorted_t : List.Sorted (· ≤ ·) ((List.range (end_date + 1 - start_date)).map
      (fun d => start_date + d)) := by
    rw [List.Sorted, List.pairwise_map]
    exact (List.sorted_lt_range _).imp (fun hab => by omega)
  refine List.eq_of_perm_of_sorted ?_ (List.sorted_insertionSort _ _) hsorted_t
  refine (List.perm_insertionSort _ _).trans ?_
  rw [List.perm_ext_iff_of_nodup (List.nodup_dedup _) hnd_t]
  intro x
  rw [List.mem_dedup, mem_date_create]
  simp only [List.mem_map, List.mem_range]
  constructor
  · rintro ⟨d, hd, rfl⟩
    exact ⟨d, hd, rfl⟩
  · rintro ⟨d, hd, rfl⟩
    exact ⟨d, hd, rfl⟩

lemma mem_day_slot_indices {slots : List SlotRec} {d s : ℕ} :
    s ∈ day_slot_indices slots d ↔ s < slots.length ∧ (slots.getD s default).date = d := by
  unfold day_slot_indices
  rw [List.mem_filter, List.mem_range, beq_iff_eq]

/-- The minimum-rest constraint, extracted from a satisfied model. -/
lemma model_rest {employees : List EmployeeInput} {slots : List SlotRec}
    {c : ShiftConstraint} {sel : ℕ → ℕ → Bool}
    (h : satisfies_model employees slots c sel = true)
    (e : ℕ) (he : e < employees.length) (i : ℕ) (hi : i < (sorted_days slots).length - 1)
    (s1 : ℕ) (hs1 : s1 ∈ day_slot_indices slots ((sorted_days slots).getD i 0))
    (s2 : ℕ) (hs2 : s2 ∈ day_slot_indices slots ((sorted_days slots).getD (i + 1) 0))
    (hv1 : has_var employees slots c e s1 = true)
    (hv2 : has_var employees slots c e s2 = true)
    (hrest : rest_hours_next_day (slots.getD s1 default).slot
      (slots.getD s2 default).slot < c.min_rest_hours) :
    ¬(sel e s1 = true ∧ sel e s2 = true) := by
  have hr := (satisfies_model_parts h).2.2.2.1
  unfold rest_ok at hr
  rw [List.all_eq_true] at hr
  have h1 := hr e (List.mem_range.mpr he)
  rw [List.all_eq_true] at h1
  have h2 := h1 i (List.mem_range.mpr hi)
  rw [List.all_eq_true] at h2
  have h3 := h2 s1 hs1
  rw [Bool.or_eq_true, Bool.not_eq_true'] at h3
  rcases h3 with h3 | h3
  · rw [hv1] at h3
    exact absurd h3 (by simp)
  · rw [List.all_eq_true] at h3
    have h4 := h3 s2 hs2
    simp only [Bool.or_eq_true, Bool.not_eq_true', Bool.not_eq_true, decide_eq_false_iff_not,
      Bool.and_eq_true] at h4
    rcases h4 with (h4 | h4) | h4
    · rw [hv2] at h4
      exact absurd h4 (by simp)
    · exact absurd hrest h4
    · intro hsel
      rw [hsel.1, hsel.2] at h4
      simp at h4

lemma shift_end_le_24 (t : PyShiftSlot) : shift_end t ≤ 24 := by
  cases t <;> decide

lemma rest_hours_next_day_int (t1 t2 : PyShiftSlot) :
    (rest_hours_next_day t1 t2 : ℤ) = 24 + shift_start t2 - shift_end t1 := by
  cases t1 <;> cases t2 <;> decide

/-- C2 (amended): in every schedule `optimize_shifts` can return (employee ids
distinct, `min_rest_hours ≤ 24` as the schema guarantees), no employee holds
two assignments on *distinct calendar days* whose rest gap — from the end of
the earlier shift to the start of the later one under the fixed windows, with
wrap-around at midnight — is below `constraints.min_rest_hours`.  The solver
encodes this as mutual exclusion for consecutive-day pairs, pairs two or more
days apart always have at least 24 h of rest, and the genetic fallback only
ever returns the empty schedule.  Same-calendar-day pairs are *not*
constrained (see the counterexample). -/
theorem returned_schedule_rest_spec (employees : List EmployeeInput) (c : ShiftConstraint)
    (start_date end_date : ℕ) (schedule : List ShiftAssignment)
    (hids : (employees.map (fun emp => emp.id)).Nodup)
    (hrest24 : c.min_rest_hours ≤ 24)
    (hret : returned_schedule employees c start_date end_date schedule) :
    ∀ a1 ∈ schedule, ∀ a2 ∈ schedule, a1.employee_id = a2.employee_id →
      a1.day < a2.day →
      (c.min_rest_hours : ℤ) ≤
        (24 * a2.day + shift_start a2.slot : ℤ) - (24 * a1.day + shift_end a1.slot) := by
  intro a1 ha1 a2 ha2 hid hday
  rcases hret with ⟨sel, hsat, rfl, _⟩ | ⟨⟨sel0, hsat0, hempty⟩, ch, hch, rfl⟩
  · rcases mem_schedule_of.mp ha1 with ⟨e1, s1, he1, hs1, hv1, hsel1, rfl⟩
    rcases mem_schedule_of.mp ha2 with ⟨e2, s2, he2, hs2, hv2, hsel2, rfl⟩
    dsimp only at hid hday ⊢
    obtain rfl : e1 = e2 := eq_of_id_eq hids he1 he2 hid
    by_cases hadj : ((create_time_slots start_date end_date c).getD s2 default).date =
        ((create_time_slots start_date end_date c).getD s1 default).date + 1
    · -- consecutive calendar days: the model's mutual-exclusion constraint
      by_contra hgoal
      push_neg at hgoal
      have hlen : (create_time_slots start_date end_date c).length =
          (end_date + 1 - start_date) * 3 := length_create_time_slots _ _ _
      have hd1 := date_getD_create start_date end_date c s1 hs1
      have hd2 := date_getD_create start_date end_date c s2 hs2
      have hdiv1 : s1 / 3 < end_date + 1 - start_date := by
        rw [Nat.div_lt_iff_lt_mul (by norm_num)]
        rw [hlen] at hs1
        omega
      have hdiv2 : s2 / 3 < end_date + 1 - start_date := by
        rw [Nat.div_lt_iff_lt_mul (by norm_num)]
        rw [hlen] at hs2
        omega
      have hdays := sorted_days_create start_date end_date c
      have hdays_len : (sorted_days (create_time_slots start_date end_date c)).length =
          end_date + 1 - start_date := by
        rw [hdays, List.length_map, List.length_range]
      have hsucc : s2 / 3 = s1 / 3 + 1 := by omega
      have hi : s1 / 3 < (sorted_days (create_time_slots start_date end_date c)).length - 1 := by
        omega
      have hgd1 : (sorted_days (create_time_slots start_date end_date c)).getD (s1 / 3) 0 =
          start_date + s1 / 3 := by
        rw [hdays]
        exact getD_map_range _ _ (by omega) _
      have hgd2 : (sorted_days (create_time_slots start_date end_date c)).getD (s1 / 3 + 1) 0 =
          start_date + (s1 / 3 + 1) := by
        rw [hdays]
        exact getD_map_range _ _ (by omega) _
      have hmem1 : s1 ∈ day_slot_indices (create_time_slots start_date end_date c)
          ((sorted_days (create_time_slots start_date end_date c)).getD (s1 / 3) 0) := by
        rw [mem_day_slot_indices, hgd1]
        exact ⟨hs1, hd1⟩
      have hmem2 : s2 ∈ day_slot_indices (create_time_slots start_date end_date c)
          ((sorted_days (create_time_slots start_date end_date c)).getD (s1 / 3 + 1) 0) := by
        rw [mem_day_slot_indices, hgd2]
        refine ⟨hs2, ?_⟩
        rw [hd2, hsucc]
      have hint := rest_hours_next_day_int
        ((create_time_slots start_date end_date c).getD s1 default).slot
        ((create_time_slots start_date end_date c).getD s2 default).slot
      have hrestlt : rest_hours_next_day
          ((create_time_slots start_date end_date c).getD s1 default).slot
          ((create_time_slots start_date end_date c).getD s2 default).slot <
          c.min_rest_hours := by
        omega
      exact model_rest hsat e1 he1 (s1 / 3) hi s1 hmem1 s2 hmem2 hv1 hv2 hrestlt
        ⟨hsel1, hsel2⟩
    · -- two or more days apart: at least 24 h of rest by arithmetic
      have hb := shift_end_le_24 ((create_time_slots start_date end_date c).getD s1 default).slot
      omega
  · have hnovar := schedule_of_empty_no_var hsat0 hempty
    rw [convert_empty_of_no_var hch hnovar] at ha1
    exact absurd ha1 (List.not_mem_nil a1)

/-! ### C2 witness instance: one employee, Monday and Tuesday mornings -/

def emp_2day : EmployeeInput :=
  { id := "e3", name := "E Three", skills := []
    performance_score := 3, max_hours_per_week := 40
    availability := [("monday", ["morning"]), ("tuesday", ["morning"])] }

def sel_2day : ℕ → ℕ → Bool := fun e s => e == 0 && (s == 0 || s == 3)

def asg_mon : ShiftAssignment :=
  { employee_id := "e3", employee_name := "E Three", day := 4, slot := .MORNING
    confidence := py_round2 (exact_confidence 3), required_skills := none }

def asg_tue : ShiftAssignment :=
  { employee_id := "e3", employee_name := "E Three", day := 5, slot := .MORNING
    confidence := py_round2 (exact_confidence 3), required_skills := none }

/-- Closed witness for `returned_schedule_rest_spec`: Monday and Tuesday
morning shifts of the same employee, 16 h apart. -/
theorem returned_schedule_rest_spec_witness :
    (c_default.min_rest_hours : ℤ) ≤
      (24 * asg_tue.day + shift_start asg_tue.slot : ℤ) -
        (24 * asg_mon.day + shift_end asg_mon.slot) :=
  returned_schedule_rest_spec [emp_2day] c_default 4 5 _ (by simp) (by decide)
    (Or.inl ⟨sel_2day, by decide, rfl, by
      rw [show schedule_of [emp_2day] (create_time_slots 4 5 c_default) c_default sel_2day =
        [asg_mon, asg_tue] from rfl]
      simp⟩)
    asg_mon (by
      rw [show schedule_of [emp_2day] (create_time_slots 4 5 c_default) c_default sel_2day =
        [asg_mon, asg_tue] from rfl]
      simp)
    asg_tue (by
      rw [show schedule_of [emp_2day] (create_time_slots 4 5 c_default) c_default sel_2day =
        [asg_mon, asg_tue] from rfl]
      simp)
    rfl (by decide)

/-! ### C2 counterexample instance: same-day MORNING + AFTERNOON for one
employee -/

/-- Available Monday morning and afternoon only. -/
def emp_ma : EmployeeInput :=
  { id := "eA", name := "E A", skills := []
    performance_score := 3, max_hours_per_week := 40
    availability := [("monday", ["morning", "afternoon"])] }

/-- Available Monday night only. -/
def emp_n : EmployeeInput :=
  { id := "eB", name := "E B", skills := []
    performance_score := 3, max_hours_per_week := 40
    availability := [("monday", ["night"])] }

def sel_ab : ℕ → ℕ → Bool :=
  fun e s => (e == 0 && (s == 0 || s == 1)) || (e == 1 && s == 2)

def asg_a_morning : ShiftAssignment :=
  { employee_id := "eA", employee_name := "E A", day := 4, slot := .MORNING
    confidence := py_round2 (exact_confidence 3), required_skills := none }

def asg_a_afternoon : ShiftAssignment :=
  { employee_id := "eA", employee_name := "E A", day := 4, slot := .AFTERNOON
    confidence := py_round2 (exact_confidence 3), required_skills := none }

def asg_b_night : ShiftAssignment :=
  { employee_id := "eB", employee_name := "E B", day := 4, slot := .NIGHT
    confidence := py_round2 (exact_confidence 3), required_skills := none }

/-- C2 counterexample: a returned schedule (the coverage constraint forces
employee eA onto both the MORNING and the AFTERNOON slot of the same day in
*every* feasible selection) contains two shifts of one employee with a rest
gap of 0 h — far below `min_rest_hours = 12` — because the solver only
constrains pairs on consecutive calendar days, never same-day pairs. -/
theorem same_day_rest_counterexample :
    returned_schedule [emp_ma, emp_n] c_default 4 4
      (schedule_of [emp_ma, emp_n] (create_time_slots 4 4 c_default) c_default sel_ab) ∧
    asg_a_morning ∈
      schedule_of [emp_ma, emp_n] (create_time_slots 4 4 c_default) c_default sel_ab ∧
    asg_a_afternoon ∈
      schedule_of [emp_ma, emp_n] (create_time_slots 4 4 c_default) c_default sel_ab ∧
    asg_a_morning.employee_id = asg_a_afternoon.employee_id ∧
    (24 * asg_a_afternoon.day + shift_start asg_a_afternoon.slot : ℤ) -
      (24 * asg_a_morning.day + shift_end asg_a_morning.slot) = 0 ∧
    0 < (c_default.min_rest_hours : ℤ) ∧
    (∀ sel, satisfies_model [emp_ma, emp_n] (create_time_slots 4 4 c_default) c_default sel =
        true → sel 0 0 = true ∧ sel 0 1 = true) := by
  refine ⟨Or.inl ⟨sel_ab, by decide, rfl, by
      rw [show schedule_of [emp_ma, emp_n] (create_time_slots 4 4 c_default) c_default sel_ab =
        [asg_a_morning, asg_a_afternoon, asg_b_night] from rfl]
      simp⟩, ?_, ?_, rfl, by decide, by decide, ?_⟩
  · rw [show schedule_of [emp_ma, emp_n] (create_time_slots 4 4 c_default) c_default sel_ab =
      [asg_a_morning, asg_a_afternoon, asg_b_night] from rfl]
    simp
  · rw [show schedule_of [emp_ma, emp_n] (create_time_slots 4 4 c_default) c_default sel_ab =
      [asg_a_morning, asg_a_afternoon, asg_b_night] from rfl]
    simp
  · intro sel hsat
    constructor
    · rcases model_coverage hsat 0 (by decide) 0 (by decide) with ⟨e1, he1, hv, hs⟩
      have he2 : e1 < 2 := by simpa using he1
      interval_cases e1
      · exact hs
      · exact absurd hv (by decide)
    · rcases model_coverage hsat 1 (by decide) 0 (by decide) with ⟨e1, he1, hv, hs⟩
      have he2 : e1 < 2 := by simpa using he1
      interval_cases e1
      · exact hs
      · exact absurd hv (by decide)

/-! ## Closure of `chromosome_ok` under the genetic operators

These lemmas justify reading `chromosome_ok` as an invariant of every
chromosome the genetic algorithm manipulates: initialization produces only
feasibility-filtered genes (or `-1`), single-point crossover recombines
parents position by position, and mutation resamples one gene from the slot's
feasible option set. -/

lemma gene_ok_choice (employees : List EmployeeInput) (slot : SlotRec) (r : ℕ) :
    gene_ok employees slot (choice_or_neg1 (feasible_options employees slot) r) = true := by
  unfold gene_ok choice_or_neg1
  cases he : (feasible_options employees slot).isEmpty
  · rw [if_neg (by simp)]
    have hne : feasible_options employees slot ≠ [] := by
      intro hnil
      rw [hnil] at he
      simp at he
    have hlen : 0 < (feasible_options employees slot).length := List.length_pos.mpr hne
    have hmem : (feasible_options employees slot).getD
        (r % (feasible_options employees slot).length) 0 ∈ feasible_options employees slot := by
      rw [List.getD_eq_getElem _ _ (Nat.mod_lt _ hlen)]
      exact List.getElem_mem _
    rw [Bool.or_eq_true, Bool.and_eq_true]
    right
    refine ⟨by simp, ?_⟩
    rw [Int.toNat_natCast]
    exact List.elem_eq_true_of_mem hmem
  · rw [if_pos rfl]
    simp

/-- A chromosome is valid iff it has one gene per slot and each gene is valid
for its slot (index form). -/
lemma chromosome_ok_iff {employees : List EmployeeInput} {slots : List SlotRec}
    {ch : List ℤ} :
    chromosome_ok employees slots ch = true ↔
      ch.length = slots.length ∧
      ∀ i : ℕ, ∀ hc : i < ch.length, ∀ hs : i < slots.length,
        gene_ok employees slots[i] ch[i] = true := by
  unfold chromosome_ok
  rw [Bool.and_eq_true, beq_iff_eq, List.all_eq_true]
  constructor
  · rintro ⟨hl, hg⟩
    refine ⟨hl, fun i hc hs => ?_⟩
    have hmem : ((ch[i], slots[i]) : ℤ × SlotRec) ∈ ch.zip slots := by
      rw [List.mem_iff_getElem]
      refine ⟨i, by rw [List.length_zip]; omega, ?_⟩
      rw [List.getElem_zip]
    exact hg _ hmem
  · rintro ⟨hl, hg⟩
    refine ⟨hl, fun p hp => ?_⟩
    rcases List.mem_iff_getElem.mp hp with ⟨i, hi, hget⟩
    have hc : i < ch.length := by
      rw [List.length_zip] at hi
      omega
    have hs : i < slots.length := by
      rw [List.length_zip] at hi
      omega
    rw [List.getElem_zip] at hget
    rw [← hget]
    exact hg i hc hs

/-- Initialization (`_initialize_population`) produces valid chromosomes. -/
lemma init_chromosome_ok (employees : List EmployeeInput) (slots : List SlotRec)
    (r : ℕ → ℕ) : chromosome_ok employees slots (init_chromosome employees slots r) = true := by
  rw [chromosome_ok_iff]
  have hlen : (init_chromosome employees slots r).length = slots.length := by
    unfold init_chromosome
    rw [List.length_map, List.enum_length]
  refine ⟨hlen, fun i hc hs => ?_⟩
  have hget : (init_chromosome employees slots r)[i] =
      choice_or_neg1 (feasible_options employees slots[i]) (r i) := by
    unfold init_chromosome
    rw [List.getElem_map, List.getElem_enum]
  rw [hget]
  exact gene_ok_choice employees slots[i] (r i)

/-- Single-point crossover preserves chromosome validity (the crossover point
drawn by `random.randint(1, len(parent1) - 1)` never exceeds the length). -/
lemma crossover_chromosome_ok (employees : List EmployeeInput) (slots : List SlotRec)
    (parent1 parent2 : List ℤ) (point : ℕ) (hpoint : point ≤ parent1.length)
    (h1 : chromosome_ok employees slots parent1 = true)
    (h2 : chromosome_ok employees slots parent2 = true) :
    chromosome_ok employees slots (crossover_child parent1 parent2 point) = true := by
  rw [chromosome_ok_iff] at h1 h2 ⊢
  obtain ⟨h1l, h1g⟩ := h1
  obtain ⟨h2l, h2g⟩ := h2
  have hlen : (crossover_child parent1 parent2 point).length = slots.length := by
    unfold crossover_child
    rw [List.length_append, List.length_take, List.length_drop]
    omega
  refine ⟨hlen, fun i hc hs => ?_⟩
  by_cases hcase : i < point
  · have hip : i < parent1.length := by omega
    have hget : (crossover_child parent1 parent2 point)[i] = parent1[i] := by
      unfold crossover_child
      rw [List.getElem_append_left (by rw [List.length_take]; omega)]
      simp [List.getElem_take]
    rw [hget]
    exact h1g i hip hs
  · have hip : i < parent2.length := by omega
    have hget : (crossover_child parent1 parent2 point)[i] = parent2[i] := by
      unfold crossover_child
      rw [List.getElem_append_right (by rw [List.length_take]; omega)]
      simp only [List.getElem_drop, List.length_take]
      congr 1
      omega
    rw [hget]
    exact h2g i hip hs

/-- Mutation (`_mutate`) preserves chromosome validity (the mutation point
drawn by `random.randrange(len(mutated))` is always in range). -/
lemma mutate_chromosome_ok (employees : List EmployeeInput) (slots : List SlotRec)
    (individual : List ℤ) (point r : ℕ) (hpoint : point < individual.length)
    (h : chromosome_ok employees slots individual = true) :
    chromosome_ok employees slots (mutate individual employees slots point r) = true := by
  rw [chromosome_ok_iff] at h ⊢
  obtain ⟨hl, hg⟩ := h
  have hmut : mutate individual employees slots point r =
      individual.set point (choice_or_neg1 (feasible_options employees
        (slots.getD point default)) r) := by
    unfold mutate
    rw [if_neg (by
      rw [List.isEmpty_iff]
      intro hnil
      rw [hnil] at hpoint
      simp at hpoint)]
  rw [hmut]
  have hlen : (individual.set point (choice_or_neg1 (feasible_options employees
      (slots.getD point default)) r)).length = slots.length := by
    rw [List.length_set]
    exact hl
  refine ⟨hlen, fun i hc hs => ?_⟩
  have hic : i < individual.length := by
    rw [List.length_set] at hc
    exact hc
  by_cases hcase : point = i
  · subst hcase
    have hps : point < slots.length := by omega
    have hget : (individual.set point (choice_or_neg1 (feasible_options employees
        (slots.getD point default)) r))[point] =
        choice_or_neg1 (feasible_options employees (slots.getD point default)) r := by
      rw [List.getElem_set]
      simp
    rw [hget]
    have hgd : slots.getD point default = slots[point] := List.getD_eq_getElem _ _ hps
    rw [hgd]
    exact gene_ok_choice employees slots[point] r
  · have hget : (individual.set point (choice_or_neg1 (feasible_options employees
        (slots.getD point default)) r))[i] = individual[i] := by
      rw [List.getElem_set, if_neg hcase]
    rw [hget]
    exact hg i hic hs

/-! ## C10 — bounds on the genetic fitness function -/

lemma pstdev_nonneg (xs : List ℚ) : 0 ≤ pstdev xs := Real.sqrt_nonneg _

/-- The loop invariant of `_evaluate_fitness`: penalties never go negative and
every collected score is some employee's performance score. -/
def fitness_inv (employees : List EmployeeInput) (acc : FitnessAcc) : Prop :=
  0 ≤ acc.penalties ∧
  ∀ x ∈ acc.assigned_scores, ∃ emp ∈ employees, x = emp.performance_score

lemma fitness_step_inv (employees : List EmployeeInput) (c : ShiftConstraint)
    (slots : List SlotRec) (acc : FitnessAcc) (p : ℕ × ℤ)
    (hg : p.2 < 0 ∨ p.2.toNat < employees.length)
    (h : fitness_inv employees acc) :
    fitness_inv employees (fitness_step employees c slots acc p) := by
  obtain ⟨hpen, hsc⟩ := h
  unfold fitness_step
  by_cases hneg : p.2 < 0
  · rw [if_pos hneg]
    exact ⟨by dsimp only; linarith, hsc⟩
  · rw [if_neg hneg]
    have hmem : employees.getD p.2.toNat default ∈ employees := by
      rcases hg with hg | hg
      · exact absurd hg hneg
      · rw [List.getD_eq_getElem _ _ hg]
        exact List.getElem_mem _
    have hsc' : ∀ x ∈ acc.assigned_scores ++
        [(employees.getD p.2.toNat default).performance_score],
        ∃ emp ∈ employees, x = emp.performance_score := by
      intro x hx
      rcases List.mem_append.mp hx with hx | hx
      · exact hsc x hx
      · rcases List.mem_singleton.mp hx with rfl
        exact ⟨_, hmem, rfl⟩
    constructor
    · dsimp only
      repeat' split
      all_goals dsimp only
      all_goals linarith
    · dsimp only
      repeat' split
      all_goals dsimp only
      all_goals exact hsc'

lemma fitness_fold_inv (employees : List EmployeeInput) (c : ShiftConstraint)
    (slots : List SlotRec) :
    ∀ l : List (ℕ × ℤ), (∀ p ∈ l, p.2 < 0 ∨ p.2.toNat < employees.length) →
    ∀ acc, fitness_inv employees acc →
    fitness_inv employees (l.foldl (fitness_step employees c slots) acc) := by
  intro l
  induction l with
  | nil => intro _ acc h; exact h
  | cons x t ih =>
      intro hl acc h
      rw [List.foldl_cons]
      exact ih (fun p hp => hl p (List.mem_cons_of_mem x hp)) _
        (fitness_step_inv employees c slots acc x (hl x (List.mem_cons_self x t)) h)

/-- C10: on valid input (genes either `-1` or in-range employee indices,
performance scores within the schema's [0, 5]), `_evaluate_fitness` always
returns a value in [0, 0.7]: efficiency ≤ 1 weighted 0.4, fairness ≤ 1
weighted 0.3, penalties non-negative, and the result clamped below at 0.
Hence the early-stop test `best_fitness > 0.96` (line 135) can never succeed —
`best_fitness` is a running maximum of such values — and the fallback always
runs its full `self.generations = 120` generations. -/
theorem evaluate_fitness_bounds (individual : List ℤ) (employees : List EmployeeInput)
    (c : ShiftConstraint) (slots : List SlotRec)
    (hgenes : ∀ g ∈ individual, g < 0 ∨ g.toNat < employees.length)
    (hperf : ∀ emp ∈ employees, 0 ≤ emp.performance_score ∧ emp.performance_score ≤ 5) :
    0 ≤ evaluate_fitness individual employees c slots ∧
    evaluate_fitness individual employees c slots ≤ 0.7 ∧
    ¬(evaluate_fitness individual employees c slots > early_stop_threshold) ∧
    early_stop_threshold = 0.96 ∧ ga_generations = 120 := by
  have hgenes' : ∀ p ∈ individual.enum, p.2 < 0 ∨ p.2.toNat < employees.length := by
    intro p hp
    rcases List.mem_iff_getElem.mp hp with ⟨i, hi, hget⟩
    rw [List.getElem_enum] at hget
    have hii : i < individual.length := by simpa using hi
    have : p.2 = individual[i] := by rw [← hget]
    rw [this]
    exact hgenes _ (List.getElem_mem _)
  have hmain : 0 ≤ evaluate_fitness individual employees c slots ∧
      evaluate_fitness individual employees c slots ≤ 0.7 := by
    have hinv := fitness_fold_inv employees c slots individual.enum hgenes'
      { assigned_scores := [], penalties := 0, hours_by_employee := []
        shift_quality_by_employee := [], weekend_shifts_by_employee := [] }
      ⟨le_refl 0, by simp⟩
    simp only [evaluate_fitness]
    set A := individual.enum.foldl (fitness_step employees c slots)
      { assigned_scores := [], penalties := 0, hours_by_employee := []
        shift_quality_by_employee := [], weekend_shifts_by_employee := [] } with hA
    obtain ⟨hpen, hsc⟩ := hinv
    by_cases hemp : A.assigned_scores.isEmpty = true
    · rw [if_pos hemp]
      norm_num
    · rw [if_neg hemp]
      have hlen1 : 1 ≤ A.assigned_scores.length := by
        rcases hl : A.assigned_scores with _ | ⟨x, t⟩
        · rw [hl] at hemp
          simp at hemp
        · simp
      have hsum : A.assigned_scores.sum ≤ (A.assigned_scores.length : ℚ) * 5 := by
        have := List.sum_le_card_nsmul A.assigned_scores 5 (fun x hx => by
          rcases hsc x hx with ⟨emp, hmem, rfl⟩
          exact (hperf emp hmem).2)
        rw [nsmul_eq_mul] at this
        exact this
      have heff : ((A.assigned_scores.sum : ℚ) : ℝ) /
          ((A.assigned_scores.length : ℝ) * 5) ≤ 1 := by
        rw [div_le_one (by positivity)]
        have hc := Rat.cast_le (K := ℝ).mpr hsum
        push_cast at hc ⊢
        linarith
      have hpenR : (0 : ℝ) ≤ (A.penalties : ℝ) := by exact_mod_cast hpen
      have hhf : (if A.hours_by_employee.length > 1 then
          1 - pstdev (A.hours_by_employee.map (fun p => (p.2 : ℚ))) /
            (if c.max_hours_per_week == 0 then 1 else (c.max_hours_per_week : ℝ))
          else 1) ≤ 1 := by
        split_ifs with h1 h2
        · apply sub_le_self
          apply div_nonneg (pstdev_nonneg _)
          norm_num
        · apply sub_le_self
          apply div_nonneg (pstdev_nonneg _)
          exact Nat.cast_nonneg _
        · exact le_refl 1
      have hqf : (if !A.shift_quality_by_employee.isEmpty then
          (if (A.shift_quality_by_employee.map (fun p => (p.2.night : ℚ))).length > 1 then
            1 - min 0.3 (pstdev (A.shift_quality_by_employee.map (fun p => (p.2.night : ℚ))) /
              max 1 (((A.shift_quality_by_employee.map (fun p => (p.2.night : ℚ))).sum : ℝ) /
                (A.shift_quality_by_employee.map (fun p => (p.2.night : ℚ))).length))
          else 1) else 1) ≤ 1 := by
        split_ifs with h1 h2
        · apply sub_le_self
          refine le_min (by norm_num) ?_
          apply div_nonneg (pstdev_nonneg _)
          exact le_trans zero_le_one (le_max_left _ _)
        · exact le_refl 1
        · exact le_refl 1
      have hwf : (if !A.weekend_shifts_by_employee.isEmpty then
          (if (A.weekend_shifts_by_employee.map (fun p => (p.2 : ℚ))).length > 1 then
            1 - min 0.2 (pstdev (A.weekend_shifts_by_employee.map (fun p => (p.2 : ℚ))) /
              max 1 (((A.weekend_shifts_by_employee.map (fun p => (p.2 : ℚ))).sum : ℝ) /
                (A.weekend_shifts_by_employee.map (fun p => (p.2 : ℚ))).length))
          else 1) else 1) ≤ 1 := by
        split_ifs with h1 h2
        · apply sub_le_self
          refine le_min (by norm_num) ?_
          apply div_nonneg (pstdev_nonneg _)
          exact le_trans zero_le_one (le_max_left _ _)
        · exact le_refl 1
        · exact le_refl 1
      constructor
      · exact le_max_left _ _
      · apply max_le (by norm_num)
        nlinarith [heff, hhf, hqf, hwf, hpenR]
  refine ⟨hmain.1, hmain.2, ?_, rfl, rfl⟩
  rw [early_stop_threshold]
  push_neg
  linarith [hmain.2]

/-- Closed witness for `evaluate_fitness_bounds`. -/
theorem evaluate_fitness_bounds_witness :
    0 ≤ evaluate_fitness [] [] c_default [] ∧
    evaluate_fitness [] [] c_default [] ≤ 0.7 ∧
    ¬(evaluate_fitness [] [] c_default [] > early_stop_threshold) ∧
    early_stop_threshold = 0.96 ∧ ga_generations = 120 :=
  evaluate_fitness_bounds [] [] c_default [] (by simp) (by simp)

end GbsoftOltu
